import Mathlib

/-!
# nm-demo: the ELF64 symbol reader

A shallow embedding of `symbolreader.c` / `symbolreader.h` and of the callback of
`test-symbolreader.c`.

* Addresses and unsigned machine integers are natural numbers.  The loop counter of
  the traversal and the field `sym_count` are `uint64_t`: the counter is reduced modulo
  `2 ^ 64` where it is incremented and the field where the loop reads it.
* The process state the reader touches (`Sys`) holds the descriptor table, the live
  mappings and the bytes of the rest of the address space.  A load is the raw load of
  the source: it performs no bounds check, so an address outside every mapping reads
  the byte the address space holds there.  `SymbolReader_Init_checked` is the same
  code with every load checked against the mapping of the file: a load outside it is
  the outcome `out_of_range`, and a run without that outcome returns what
  `SymbolReader_Init` returns.
* `SymbolReader *` arguments are `Option SymbolReader` (`none` is `NULL`), and the
  struct is passed in and handed back.  Callbacks receive the same pointer, so they
  are state transformers over the struct and the caller's own state `σ`.
-/

namespace NmDemo

set_option maxRecDepth 100000

/-! ## Files, descriptors and mappings -/

/-- A file as `open`, `fstat` and `mmap` see it: its bytes, and whether the kernel
refuses to stat or to map it. -/
structure File where
  bytes : List Nat
  stat_fails : Bool
  map_fails : Bool

/-- A live mapping: start address, length, and the bytes it shows. -/
structure Mapping where
  addr : Nat
  len : Nat
  bytes : List Nat

/-- The system calls made by the reader, as they are recorded in `Sys.log`. -/
inductive Syscall where
  | sc_open (path : String) (ret : Int)
  | sc_fstat (fd : Int) (ret : Int)
  | sc_mmap (len : Nat) (fd : Int) (ret : Nat)
  | sc_munmap (addr : Nat) (len : Nat) (ret : Int)
  | sc_close (fd : Int) (ret : Int)
  deriving DecidableEq

/-- The part of the process and of the file system the reader works on. -/
structure Sys where
  /-- files that can be opened for reading, by path -/
  fs : String → Option File
  /-- open descriptors -/
  fds : List (Int × File)
  /-- live mappings, the most recent first -/
  maps : List Mapping
  /-- bytes of the address space outside the mappings -/
  ram : Nat → Nat
  /-- system calls made so far, the oldest first -/
  log : List Syscall

/-- `MAP_FAILED` of `<sys/mman.h>`: `(void *) -1`. -/
def MAP_FAILED : Nat := 2 ^ 64 - 1

/-- `SHT_SYMTAB` of `<elf.h>`. -/
def SHT_SYMTAB : Nat := 2

/-- The least descriptor number that is not open (what `open` hands out). -/
def lowest_free (fds : List (Int × File)) : Int :=
  Int.ofNat (((List.range (fds.length + 1)).find?
    (fun n => !(fds.any (fun e => e.1 == Int.ofNat n)))).getD fds.length)

/-- A page-aligned, non-null address above every live mapping (what `mmap` with a
null hint hands out). -/
def fresh_addr (maps : List Mapping) : Nat :=
  4096 * (1 + (maps.map (fun m => (m.addr + m.len) / 4096 + 1)).foldr max 0)

/-- The file behind an open descriptor. -/
def fd_file (s : Sys) (fd : Int) : Option File :=
  (s.fds.find? (fun e => e.1 == fd)).map (fun e => e.2)

/-- `open(path, O_RDONLY)`: the least free descriptor, or `-1` when the path cannot be
opened. -/
def sys_open (s : Sys) (path : String) : Int × Sys :=
  match s.fs path with
  | some f =>
    let fd := lowest_free s.fds
    (fd, { s with fds := (fd, f) :: s.fds, log := s.log ++ [Syscall.sc_open path fd] })
  | none => (-1, { s with log := s.log ++ [Syscall.sc_open path (-1)] })

/-- `fstat(fd, &statbuf)`: `some st_size`, or `none` for the result `-1`. -/
def sys_fstat (s : Sys) (fd : Int) : Option Nat × Sys :=
  match fd_file s fd with
  | some f =>
    if f.stat_fails then (none, { s with log := s.log ++ [Syscall.sc_fstat fd (-1)] })
    else (some f.bytes.length, { s with log := s.log ++ [Syscall.sc_fstat fd 0] })
  | none => (none, { s with log := s.log ++ [Syscall.sc_fstat fd (-1)] })

/-- `mmap(NULL, len, PROT_READ, MAP_PRIVATE, fd, 0)`: the address of the new mapping,
or `MAP_FAILED` (a zero length, a descriptor that is not open, a refusal). -/
def sys_mmap (s : Sys) (len : Nat) (fd : Int) : Nat × Sys :=
  match fd_file s fd with
  | some f =>
    if len = 0 ∨ f.map_fails = true then
      (MAP_FAILED, { s with log := s.log ++ [Syscall.sc_mmap len fd MAP_FAILED] })
    else
      let a := fresh_addr s.maps
      (a, { s with maps := { addr := a, len := len, bytes := f.bytes } :: s.maps,
                   log := s.log ++ [Syscall.sc_mmap len fd a] })
  | none => (MAP_FAILED, { s with log := s.log ++ [Syscall.sc_mmap len fd MAP_FAILED] })

/-- `munmap(addr, len)`: releases the mappings that lie wholly inside
`[addr, addr + len)`; a zero length is an error and releases nothing. -/
def sys_munmap (s : Sys) (addr len : Nat) : Sys :=
  if len = 0 then { s with log := s.log ++ [Syscall.sc_munmap addr len (-1)] }
  else
    { s with maps := s.maps.filter (fun m => !(decide (addr ≤ m.addr) && decide (m.addr + m.len ≤ addr + len))),
             log := s.log ++ [Syscall.sc_munmap addr len 0] }

/-- `close(fd)`: removes the descriptor from the table; `-1` when it is not open. -/
def sys_close (s : Sys) (fd : Int) : Sys :=
  if s.fds.any (fun e => e.1 == fd) then
    { s with fds := s.fds.filter (fun e => !(e.1 == fd)),
             log := s.log ++ [Syscall.sc_close fd 0] }
  else { s with log := s.log ++ [Syscall.sc_close fd (-1)] }

/-! ## Loads -/

/-- The byte at address `a`: the byte of the most recent mapping that covers `a`
(zero past the end of the file), else the byte of the rest of the address space.  The
load is total: it says what a read returns when the address is readable.  The source
does not check an address before it reads, and where the address is not mapped the
process is killed; `load_checked` and the `_checked` functions built on it make a read
outside the mapping of the file an outcome of its own, and the statements that
`SymbolReader_Init` returns, for every mapped file, are made on them. -/
def load8 (s : Sys) (a : Nat) : Nat :=
  match s.maps.find? (fun m => decide (m.addr ≤ a) && decide (a < m.addr + m.len)) with
  | some m => (m.bytes.getD (a - m.addr) 0) % 256
  | none => s.ram a % 256

/-- An `n`-byte unsigned load at `a` in the native (little-endian) byte order. -/
def load (ld : Nat → Nat) (a : Nat) : Nat → Nat
  | 0 => 0
  | n + 1 => ld a + 256 * load ld (a + 1) n

/-- Member `e_shoff` of the `Elf64_Ehdr` at `ehdr`. -/
def e_shoff (ld : Nat → Nat) (ehdr : Nat) : Nat := load ld (ehdr + 40) 8

/-- Member `e_shnum` of the `Elf64_Ehdr` at `ehdr`. -/
def e_shnum (ld : Nat → Nat) (ehdr : Nat) : Nat := load ld (ehdr + 60) 2

/-- Member `sh_type` of the `Elf64_Shdr` at `sh`. -/
def sh_type (ld : Nat → Nat) (sh : Nat) : Nat := load ld (sh + 4) 4

/-- Member `sh_offset` of the `Elf64_Shdr` at `sh`. -/
def sh_offset (ld : Nat → Nat) (sh : Nat) : Nat := load ld (sh + 24) 8

/-- Member `sh_size` of the `Elf64_Shdr` at `sh`. -/
def sh_size (ld : Nat → Nat) (sh : Nat) : Nat := load ld (sh + 32) 8

/-- Member `sh_link` of the `Elf64_Shdr` at `sh`. -/
def sh_link (ld : Nat → Nat) (sh : Nat) : Nat := load ld (sh + 40) 4

/-- Member `st_name` of the `Elf64_Sym` at `sym`. -/
def st_name (ld : Nat → Nat) (sym : Nat) : Nat := load ld sym 4

/-- Member `st_value` of the `Elf64_Sym` at `sym`. -/
def st_value (ld : Nat → Nat) (sym : Nat) : Nat := load ld (sym + 8) 8

/-- `sizeof(Elf64_Shdr)`. -/
def SHDR_SIZE : Nat := 64

/-- `sizeof(Elf64_Sym)`. -/
def SYM_SIZE : Nat := 24

/-! ## The macros of `elfmacros.h` -/

/-- Modelled from the spec: `elfmacros.h` is not among the sources.  `SECTION_HEADERS`
is "the address of the section-header array as header-base + header-declared
offset". -/
def SECTION_HEADERS (ld : Nat → Nat) (ehdr : Nat) : Nat := ehdr + e_shoff ld ehdr

/-- Modelled from the spec: `elfmacros.h` is not among the sources.  `SECTION_COUNT`
is "the number of section headers from the header's declared section-header count
field". -/
def SECTION_COUNT (ld : Nat → Nat) (ehdr : Nat) : Nat := e_shnum ld ehdr

/-- Modelled from the spec: `elfmacros.h` is not among the sources.  `SYMBOL_COUNT` is
"(section's declared total byte size) / (fixed symbol-entry byte size), using integer
division". -/
def SYMBOL_COUNT (ld : Nat → Nat) (sym_sh : Nat) : Nat := sh_size ld sym_sh / SYM_SIZE

/-- Modelled from the spec: `elfmacros.h` is not among the sources.  `SYMBOL_TABLE` is
"the symbol-table base address from the section's declared file offset relative to
the header base". -/
def SYMBOL_TABLE (ld : Nat → Nat) (ehdr sym_sh : Nat) : Nat := ehdr + sh_offset ld sym_sh

/-- Modelled from the spec: `elfmacros.h` is not among the sources.  `STRING_TABLE` is
"the string-table base address from the linked section (the symbol-table section
header carries an index into the section-header array identifying its string
table)". -/
def STRING_TABLE (ld : Nat → Nat) (ehdr shdrs sym_sh : Nat) : Nat :=
  ehdr + sh_offset ld (shdrs + SHDR_SIZE * sh_link ld sym_sh)

/-- Modelled from the spec: `elfmacros.h` is not among the sources.  `SYMBOL_STRING` is
the "null-terminated lookup into the string table at the entry's name-offset". -/
def SYMBOL_STRING (ld : Nat → Nat) (str_table sym : Nat) : Nat := str_table + st_name ld sym

/-! ## `struct SymbolReader` -/

/-- The struct of `symbolreader.h`; pointers are addresses, `0` is `NULL`.  An address
is a natural number, and a 64-bit field holds that number when it is below `2 ^ 64`:
the statements on the value of an address carry that as a hypothesis. -/
structure SymbolReader where
  ehdr : Nat
  shdrs : Nat
  sym_sh : Nat
  sym_table : Nat
  sym_count : Nat
  str_table : Nat
  fsize : Nat
  fd : Int
  deriving DecidableEq

/-- The struct after `memset(reader, 0, sizeof(SymbolReader))`. -/
def SymbolReader.zero : SymbolReader :=
  { ehdr := 0, shdrs := 0, sym_sh := 0, sym_table := 0, sym_count := 0,
    str_table := 0, fsize := 0, fd := 0 }

/-! ## `symbolreader.c` -/

/-- `map_elf_header`: records the descriptor, stats the file, records its size and
maps it. -/
def map_elf_header (reader : SymbolReader) (fd : Int) (s : Sys) : Int × SymbolReader × Sys :=
  let r1 := { reader with fd := fd }
  let st := sys_fstat s r1.fd
  match st.1 with
  | none => (-1, r1, st.2)
  | some st_size =>
    let r2 := { r1 with fsize := st_size % 2 ^ 64 }
    let m := sys_mmap st.2 r2.fsize r2.fd
    let r3 := { r2 with ehdr := m.1 }
    (if r3.ehdr = MAP_FAILED then -1 else 0, r3, m.2)

/-- The `for` loop of `parse_symbol_header`: `k` iterations are left and the counter is
`i` (so `k = SECTION_COUNT - i`); the result is `sym_sh`, still `NULL` when no header
matched. -/
def find_symtab (ld : Nat → Nat) (shdrs : Nat) : Nat → Nat → Nat
  | 0, _ => 0
  | k + 1, i =>
    if sh_type ld (shdrs + SHDR_SIZE * i) = SHT_SYMTAB then shdrs + SHDR_SIZE * i
    else find_symtab ld shdrs k (i + 1)

/-- `parse_symbol_header`: locates the symbol-table section header and the count. -/
def parse_symbol_header (reader : SymbolReader) (s : Sys) : Int × SymbolReader :=
  let r1 := { reader with shdrs := SECTION_HEADERS (load8 s) reader.ehdr }
  let r2 := { r1 with sym_sh := 0 }
  let r3 := { r2 with sym_sh := find_symtab (load8 s) r2.shdrs (SECTION_COUNT (load8 s) r2.ehdr) 0 }
  if r3.sym_sh = 0 then (-1, r3)
  else (0, { r3 with sym_count := SYMBOL_COUNT (load8 s) r3.sym_sh })

/-- `SymbolReader_Init`. -/
def SymbolReader_Init (reader : Option SymbolReader) (fpath : Option String) (s : Sys) :
    Int × Option SymbolReader × Sys :=
  match reader, fpath with
  | some r, some path =>
    let o := sys_open s path
    if o.1 = -1 then (-1, some r, o.2)
    else
      let m := map_elf_header r o.1 o.2
      if m.1 = -1 then (-1, some m.2.1, sys_close m.2.2 o.1)
      else
        let p := parse_symbol_header m.2.1 m.2.2
        if p.1 = -1 then
          (-1, some p.2, sys_close (sys_munmap m.2.2 p.2.ehdr p.2.fsize) o.1)
        else
          let r1 := { p.2 with sym_table := SYMBOL_TABLE (load8 m.2.2) p.2.ehdr p.2.sym_sh }
          let r2 := { r1 with
            str_table := STRING_TABLE (load8 m.2.2) r1.ehdr r1.shdrs r1.sym_sh }
          (0, some r2, m.2.2)
  | _, _ => (-1, reader, s)

/-- One call made by the traversal, as it is recorded: the callback, the loop counter
`i`, the entry address passed, and for the filter the value it returned. -/
inductive Call where
  | filter (i : Nat) (sym : Nat) (ret : Int)
  | action (i : Nat) (sym : Nat)
  deriving DecidableEq

/-- `sym_action_t`: a procedure on the reader struct behind the pointer, the entry
address and the caller's state. -/
abbrev sym_action_t (σ : Type) := SymbolReader → Nat → σ → SymbolReader × σ

/-- `sym_filter_t`: as `sym_action_t`, and it returns an `int`. -/
abbrev sym_filter_t (σ : Type) := SymbolReader → Nat → σ → Int × SymbolReader × σ

/-- The state of a traversal: the reader struct, the caller's state and the calls made
so far (the oldest first). -/
structure Run (σ : Type) where
  reader : SymbolReader
  user : σ
  calls : List Call

/-- `dummy_filter`: always `1`, and it touches nothing. -/
def dummy_filter {σ : Type} : sym_filter_t σ := fun reader _ u => (1, reader, u)

/-- The body of the `for` loop of `SymbolReader_ProcessSymbols` at counter `i`. -/
def process_step {σ : Type} (action : sym_action_t σ) (filter : sym_filter_t σ) (i : Nat)
    (st : Run σ) : Run σ :=
  let sym := st.reader.sym_table + SYM_SIZE * i
  let f := filter st.reader sym st.user
  let st1 : Run σ := { reader := f.2.1, user := f.2.2, calls := st.calls ++ [Call.filter i sym f.1] }
  if f.1 ≠ 0 then
    let sym1 := st1.reader.sym_table + SYM_SIZE * i
    let a := action st1.reader sym1 st1.user
    { reader := a.1, user := a.2, calls := st1.calls ++ [Call.action i sym1] }
  else st1

/-- The `for` loop of `SymbolReader_ProcessSymbols` from counter `i` on: the bound
`reader->sym_count`, a `uint64_t`, is read again before every iteration.  The counter
stays below `2 ^ 64`, so the loop ends. -/
def process_loop {σ : Type} (action : sym_action_t σ) (filter : sym_filter_t σ) (i : Nat)
    (st : Run σ) : Run σ :=
  if i < st.reader.sym_count % 2 ^ 64 then
    process_loop action filter ((i + 1) % 2 ^ 64) (process_step action filter i st)
  else st
termination_by 2 ^ 64 - i
decreasing_by omega

/-- `SymbolReader_ProcessSymbols`: the reader struct and the caller's state after the
call, and the calls made. -/
def SymbolReader_ProcessSymbols {σ : Type} (reader : Option SymbolReader)
    (action : Option (sym_action_t σ)) (filter : Option (sym_filter_t σ)) (u : σ) :
    Option SymbolReader × σ × List Call :=
  match reader, action with
  | some r, some act =>
    let flt := match filter with
      | some f => f
      | none => dummy_filter
    let st := process_loop act flt 0 { reader := r, user := u, calls := [] }
    (some st.reader, st.user, st.calls)
  | _, _ => (reader, u, [])

/-- `SymbolReader_Destroy`. -/
def SymbolReader_Destroy (reader : Option SymbolReader) (s : Sys) :
    Option SymbolReader × Sys :=
  match reader with
  | none => (none, s)
  | some r => (some SymbolReader.zero, sys_close (sys_munmap s r.ehdr r.fsize) r.fd)

/-! ## `test-symbolreader.c` -/

/-- The bytes of the C string at `a`, up to the terminating zero; `fuel` bounds the
number of bytes looked at. -/
def cstring (ld : Nat → Nat) : Nat → Nat → List Nat
  | 0, _ => []
  | fuel + 1, a => if ld a = 0 then [] else ld a :: cstring ld fuel (a + 1)

/-- What `%016lx` prints for `v`: lowercase hexadecimal, zero-padded to 16 digits. -/
def hex016 (v : Nat) : String :=
  let d := Nat.toDigits 16 (v % 2 ^ 64)
  String.mk (List.replicate (16 - d.length) '0' ++ d)

/-- `print_value_and_str`: the caller's state is the text written to standard
output, one character for each byte written: a byte of the name is shown as the
character with the code of the byte, which for an ASCII name is the name. -/
def print_value_and_str (s : Sys) : sym_action_t String := fun reader symbol out =>
  let str := SYMBOL_STRING (load8 s) reader.str_table symbol
  (reader, out ++ hex016 (st_value (load8 s) symbol) ++ " " ++
    String.mk ((cstring (load8 s) (2 ^ 64) str).map Char.ofNat) ++ "\n")

/-- A name-extracting action: appends the string at `str_table + st_name` to the
caller's list of names. -/
def collect_name (s : Sys) : sym_action_t (List String) := fun reader symbol names =>
  let str := SYMBOL_STRING (load8 s) reader.str_table symbol
  (reader, names ++ [String.mk ((cstring (load8 s) (2 ^ 64) str).map Char.ofNat)])

/-! ## Synthetic ELF64 files -/

/-- The `n` little-endian bytes of `v`. -/
def le_bytes (v : Nat) : Nat → List Nat
  | 0 => []
  | n + 1 => v % 256 :: le_bytes (v / 256) n

/-- An `Elf64_Ehdr` (64 bytes) with the given `e_shoff` and `e_shnum`. -/
def mk_ehdr (shoff shnum : Nat) : List Nat :=
  [0x7f, 0x45, 0x4c, 0x46, 2, 1, 1, 0] ++ List.replicate 8 0 ++
  le_bytes 1 2 ++ le_bytes 62 2 ++ le_bytes 1 4 ++ le_bytes 0 8 ++ le_bytes 0 8 ++
  le_bytes shoff 8 ++ le_bytes 0 4 ++ le_bytes 64 2 ++ le_bytes 0 2 ++ le_bytes 0 2 ++
  le_bytes 64 2 ++ le_bytes shnum 2 ++ le_bytes 0 2

/-- An `Elf64_Shdr` (64 bytes) with the given `sh_type`, `sh_offset`, `sh_size`,
`sh_link` and `sh_entsize`. -/
def mk_shdr (type offset size link entsize : Nat) : List Nat :=
  le_bytes 0 4 ++ le_bytes type 4 ++ le_bytes 0 8 ++ le_bytes 0 8 ++ le_bytes offset 8 ++
  le_bytes size 8 ++ le_bytes link 4 ++ le_bytes 0 4 ++ le_bytes 1 8 ++ le_bytes entsize 8

/-- An `Elf64_Sym` (24 bytes) with the given `st_name` and `st_value`. -/
def mk_sym (name value : Nat) : List Nat :=
  le_bytes name 4 ++ [0x12, 0] ++ le_bytes 1 2 ++ le_bytes value 8 ++ le_bytes 0 8

/-- The string table `"\0foo\0bar\0"`. -/
def foo_bar_strtab : List Nat := [0, 102, 111, 111, 0, 98, 97, 114, 0]

/-- A minimal ELF64 file: the header, a section-header table at offset 64 holding one
`SHT_SYMTAB` header (48 bytes at offset 192, linked to section 1) and the header of its
string table (9 bytes at offset 240), two symbol entries with name offsets 1 and 5,
and the string table. -/
def elf_foo_bar : List Nat :=
  mk_ehdr 64 2 ++ mk_shdr 2 192 48 1 24 ++ mk_shdr 3 240 9 0 0 ++
  mk_sym 1 0x401000 ++ mk_sym 5 0x401020 ++ foo_bar_strtab

/-- A file with a section-header table of one header, a string table: it has no
symbol-table section. -/
def elf_no_symtab : List Nat :=
  mk_ehdr 64 1 ++ mk_shdr 3 128 9 0 0 ++ foo_bar_strtab

/-- A file with two symbol-table sections, at indices 1 and 2 of four headers; the
first holds 50 bytes (two entries and two bytes more). -/
def elf_two_symtabs : List Nat :=
  mk_ehdr 64 4 ++ mk_shdr 0 0 0 0 0 ++ mk_shdr 2 320 50 3 24 ++ mk_shdr 2 344 24 3 24 ++
  mk_shdr 3 370 9 0 0 ++ mk_sym 1 0x401000 ++ mk_sym 5 0x401020 ++ [0, 0] ++ foo_bar_strtab

/-- The terminal behind the standard descriptors: it cannot be mapped. -/
def tty : File := { bytes := [], stat_fails := false, map_fails := true }

/-- The path of `test-symbolreader.c`. -/
def ELF_FILE_PATH : String := "elf_files/ubuntu64"

/-- A process with the three standard descriptors open and nothing mapped, and a file
system that holds `f` at `ELF_FILE_PATH` and nothing else. -/
def demo_sys (f : File) : Sys :=
  { fs := fun p => if p = ELF_FILE_PATH then some f else none,
    fds := [(0, tty), (1, tty), (2, tty)],
    maps := [],
    ram := fun _ => 0,
    log := [] }

/-- A regular file with the given bytes. -/
def regular (bytes : List Nat) : File := { bytes := bytes, stat_fails := false, map_fails := false }

/-- The result of `map_elf_header` on a zeroed struct in `demo_sys f`, right after
`open`. -/
def demo_mapped (f : File) : Int × SymbolReader × Sys :=
  map_elf_header SymbolReader.zero (sys_open (demo_sys f) ELF_FILE_PATH).1
    (sys_open (demo_sys f) ELF_FILE_PATH).2

/-! ## Reading the record of a traversal -/

/-- The calls of a traversal that presents entry `i`, `i + 1`, .. of the table at
`sym_table` and gets the values `rets` from the filter: for each entry the filter
call, and right after it the action call when the value is not zero. -/
def blocks (sym_table : Nat) : Nat → List Int → List Call
  | _, [] => []
  | i, ret :: rets =>
    Call.filter i (sym_table + SYM_SIZE * i) ret ::
      ((if ret ≠ 0 then [Call.action i (sym_table + SYM_SIZE * i)] else []) ++
        blocks sym_table (i + 1) rets)

/-- The counter and the entry address of every filter call, in the order of the
calls. -/
def filter_calls : List Call → List (Nat × Nat)
  | [] => []
  | Call.filter i sym _ :: cs => (i, sym) :: filter_calls cs
  | Call.action _ _ :: cs => filter_calls cs

/-- The counter and the entry address of every filter call that returned a non-zero
value, in the order of the calls. -/
def accepted_calls : List Call → List (Nat × Nat)
  | [] => []
  | Call.filter i sym ret :: cs =>
    if ret ≠ 0 then (i, sym) :: accepted_calls cs else accepted_calls cs
  | Call.action _ _ :: cs => accepted_calls cs

/-- The counter and the entry address of every action call, in the order of the
calls. -/
def action_calls : List Call → List (Nat × Nat)
  | [] => []
  | Call.filter _ _ _ :: cs => action_calls cs
  | Call.action i sym :: cs => (i, sym) :: action_calls cs

/-- The entries `i`, `i + 1`, .., `i + k - 1` of the table at `sym_table`, each with
its index. -/
def entries_from (sym_table : Nat) : Nat → Nat → List (Nat × Nat)
  | _, 0 => []
  | i, k + 1 => (i, sym_table + SYM_SIZE * i) :: entries_from sym_table (i + 1) k

/-- The entries `0 .. sym_count - 1` of a reader, each with its index. -/
def entries (r : SymbolReader) : List (Nat × Nat) := entries_from r.sym_table 0 r.sym_count

/-- The struct `r1` has the symbol table of `r`: the same `sym_table` and
`sym_count`. -/
def keeps_table (r r1 : SymbolReader) : Prop :=
  r1.sym_count = r.sym_count ∧ r1.sym_table = r.sym_table

/-- The struct `r1` has the symbol count of `r`. -/
def keeps_count (r r1 : SymbolReader) : Prop := r1.sym_count = r.sym_count

/-- A filter that never writes `sym_count` of the reader. -/
def filter_keeps_count {σ : Type} (f : sym_filter_t σ) : Prop :=
  ∀ r sym u, keeps_count r (f r sym u).2.1

/-- An action that never writes `sym_count` of the reader. -/
def action_keeps_count {σ : Type} (a : sym_action_t σ) : Prop :=
  ∀ r sym u, keeps_count r (a r sym u).1

/-- A filter that never writes `sym_table` or `sym_count` of the reader. -/
def filter_keeps {σ : Type} (f : sym_filter_t σ) : Prop :=
  ∀ r sym u, keeps_table r (f r sym u).2.1

/-- An action that never writes `sym_table` or `sym_count` of the reader. -/
def action_keeps {σ : Type} (a : sym_action_t σ) : Prop :=
  ∀ r sym u, keeps_table r (a r sym u).1

/-- The filter an optional filter argument stands for. -/
def filter_of {σ : Type} (filter : Option (sym_filter_t σ)) : sym_filter_t σ :=
  match filter with
  | some f => f
  | none => dummy_filter

/-! ## Readers and callbacks used as concrete inputs -/

/-- The struct `SymbolReader_Init` leaves for `elf_foo_bar` in `demo_sys`. -/
def demo_reader : SymbolReader :=
  { ehdr := 4096, shdrs := 4160, sym_sh := 4160, sym_table := 4288, sym_count := 2,
    str_table := 4336, fsize := 249, fd := 3 }

/-- The process state `SymbolReader_Init` leaves for `elf_foo_bar` in `demo_sys`. -/
def demo_state : Sys :=
  (SymbolReader_Init (some SymbolReader.zero) (some ELF_FILE_PATH)
    (demo_sys (regular elf_foo_bar))).2.2

/-- An action that counts its calls and leaves the reader alone. -/
def count_action : sym_action_t Nat := fun reader _ n => (reader, n + 1)

/-- A filter that accepts the entries of even index and leaves everything alone. -/
def even_filter : sym_filter_t Nat := fun reader sym n =>
  (if (sym - reader.sym_table) / SYM_SIZE % 2 = 0 then 1 else 0, reader, n)

/-- A filter that returns `0` and leaves everything alone. -/
def reject_filter : sym_filter_t Nat := fun reader _ n => (0, reader, n)

/-- A filter that returns the non-zero value `-7` and leaves everything alone. -/
def accept_filter : sym_filter_t Nat := fun reader _ n => (-7, reader, n)

/-- An action that writes `reader->sym_count = 0`. -/
def stop_action : sym_action_t Nat := fun reader _ n => ({ reader with sym_count := 0 }, n + 1)

/-- An action that writes `reader->sym_count = 3`. -/
def grow_action : sym_action_t Nat := fun reader _ n => ({ reader with sym_count := 3 }, n + 1)

/-- A filter that returns `1` and advances `reader->sym_table` by one entry. -/
def shift_filter : sym_filter_t Nat := fun reader _ n =>
  (1, { reader with sym_table := reader.sym_table + SYM_SIZE }, n)

/-- An action that writes `reader->sym_table = 0` and leaves the count alone. -/
def untable_action : sym_action_t Nat := fun reader _ n =>
  ({ reader with sym_table := 0 }, n + 1)

/-- An action that writes `reader->sym_count = 1`. -/
def shrink_action : sym_action_t Nat := fun reader _ n => ({ reader with sym_count := 1 }, n + 1)

/-- An action with no side effect, over the process state and a caller state. -/
def idle_action : sym_action_t (Sys × Nat) := fun reader _ v => (reader, v)

/-- A filter with no side effect that accepts the entries whose name offset is odd; it
reads the entry through the process state it is given. -/
def odd_name_filter : sym_filter_t (Sys × Nat) := fun reader sym v =>
  (Int.ofNat (st_name (load8 v.1) sym % 2), reader, v)

/-- A path that names no file of `demo_sys`. -/
def MISSING_PATH : String := "elf_files/missing"

/-- The entry address passed in a call. -/
def Call.sym : Call → Nat
  | Call.filter _ sym _ => sym
  | Call.action _ sym => sym

/-- The struct `SymbolReader_Init` leaves for `elf_two_symtabs` in `demo_sys`: the
section selected is the one of 50 bytes at offset 320. -/
def two_symtabs_reader : SymbolReader :=
  { ehdr := 4096, shdrs := 4160, sym_sh := 4224, sym_table := 4416, sym_count := 2,
    str_table := 4466, fsize := 379, fd := 3 }

/-- The process state `SymbolReader_Init` leaves for `elf_two_symtabs` in `demo_sys`. -/
def two_symtabs_state : Sys :=
  (SymbolReader_Init (some SymbolReader.zero) (some ELF_FILE_PATH)
    (demo_sys (regular elf_two_symtabs))).2.2

/-! ## The section scan with bounds-checked loads -/

/-- The outcome of a bounds-checked access: the value, or the first address that lies
outside the mapping. -/
inductive Access (α : Type) where
  | value (a : α)
  | out_of_range (addr : Nat)

/-- An `n`-byte load at `a` as `load (load8 s) a n` makes it, every byte checked
against the mapping `[base, base + len)` before it is loaded. -/
def load_checked (s : Sys) (base len : Nat) : Nat → Nat → Access Nat
  | _, 0 => Access.value 0
  | a, n + 1 =>
    if base ≤ a ∧ a < base + len then
      match load_checked s base len (a + 1) n with
      | Access.value v => Access.value (load8 s a + 256 * v)
      | Access.out_of_range x => Access.out_of_range x
    else Access.out_of_range a

/-- The `for` loop of `parse_symbol_header` as `find_symtab` embeds it, with the loads
of `sh_type` checked against the mapping `[base, base + len)`; next to `sym_sh` it
returns the number of iterations made. -/
def find_symtab_checked (s : Sys) (base len shdrs : Nat) : Nat → Nat → Access (Nat × Nat)
  | 0, _ => Access.value (0, 0)
  | k + 1, i =>
    match load_checked s base len (shdrs + SHDR_SIZE * i + 4) 4 with
    | Access.out_of_range x => Access.out_of_range x
    | Access.value t =>
      if t = SHT_SYMTAB then Access.value (shdrs + SHDR_SIZE * i, 1)
      else
        match find_symtab_checked s base len shdrs k (i + 1) with
        | Access.value p => Access.value (p.1, p.2 + 1)
        | Access.out_of_range x => Access.out_of_range x

/-- `parse_symbol_header` with every load checked against the mapping
`[reader->ehdr, reader->ehdr + reader->fsize)`: `e_shoff`, `e_shnum`, the loads of the
scan, and `sh_size` of the selected header. -/
def parse_symbol_header_checked (reader : SymbolReader) (s : Sys) :
    Access (Int × SymbolReader) :=
  match load_checked s reader.ehdr reader.fsize (reader.ehdr + 40) 8 with
  | Access.out_of_range x => Access.out_of_range x
  | Access.value shoff =>
    let r1 := { reader with shdrs := reader.ehdr + shoff }
    let r2 := { r1 with sym_sh := 0 }
    match load_checked s reader.ehdr reader.fsize (reader.ehdr + 60) 2 with
    | Access.out_of_range x => Access.out_of_range x
    | Access.value shnum =>
      match find_symtab_checked s reader.ehdr reader.fsize r2.shdrs shnum 0 with
      | Access.out_of_range x => Access.out_of_range x
      | Access.value p =>
        let r3 := { r2 with sym_sh := p.1 }
        if r3.sym_sh = 0 then Access.value (-1, r3)
        else
          match load_checked s reader.ehdr reader.fsize (r3.sym_sh + 32) 8 with
          | Access.out_of_range x => Access.out_of_range x
          | Access.value size => Access.value (0, { r3 with sym_count := size / SYM_SIZE })

/-! ## Initialisation with bounds-checked loads -/

/-- The address at which a checked run left the mapping, if it did. -/
def Access.fault {α : Type} : Access α → Option Nat
  | Access.value _ => none
  | Access.out_of_range addr => some addr

/-- `SYMBOL_TABLE` with the load of `sh_offset` of the selected header checked against
the mapping `[base, base + len)`. -/
def SYMBOL_TABLE_checked (s : Sys) (base len ehdr sym_sh : Nat) : Access Nat :=
  match load_checked s base len (sym_sh + 24) 8 with
  | Access.out_of_range x => Access.out_of_range x
  | Access.value off => Access.value (ehdr + off)

/-- `STRING_TABLE` with its two loads checked against the mapping `[base, base + len)`:
`sh_link` of the selected header, then `sh_offset` of the header at that index. -/
def STRING_TABLE_checked (s : Sys) (base len ehdr shdrs sym_sh : Nat) : Access Nat :=
  match load_checked s base len (sym_sh + 40) 4 with
  | Access.out_of_range x => Access.out_of_range x
  | Access.value link =>
    match load_checked s base len (shdrs + SHDR_SIZE * link + 24) 8 with
    | Access.out_of_range x => Access.out_of_range x
    | Access.value off => Access.value (ehdr + off)

/-- `SymbolReader_Init` with every load checked against the mapping
`[reader->ehdr, reader->ehdr + reader->fsize)`, the bytes of the file.  The outcome
`out_of_range` carries the address of the first load of the source that leaves these
bytes; from there on the source fixes no result, and where the address is on no mapped
page the process is killed and the call does not return. -/
def SymbolReader_Init_checked (reader : Option SymbolReader) (fpath : Option String)
    (s : Sys) : Access (Int × Option SymbolReader × Sys) :=
  match reader, fpath with
  | some r, some path =>
    let o := sys_open s path
    if o.1 = -1 then Access.value (-1, some r, o.2)
    else
      let m := map_elf_header r o.1 o.2
      if m.1 = -1 then Access.value (-1, some m.2.1, sys_close m.2.2 o.1)
      else
        match parse_symbol_header_checked m.2.1 m.2.2 with
        | Access.out_of_range x => Access.out_of_range x
        | Access.value p =>
          if p.1 = -1 then
            Access.value (-1, some p.2, sys_close (sys_munmap m.2.2 p.2.ehdr p.2.fsize) o.1)
          else
            match SYMBOL_TABLE_checked m.2.2 p.2.ehdr p.2.fsize p.2.ehdr p.2.sym_sh with
            | Access.out_of_range x => Access.out_of_range x
            | Access.value st =>
              let r1 := { p.2 with sym_table := st }
              match STRING_TABLE_checked m.2.2 r1.ehdr r1.fsize r1.ehdr r1.shdrs
                  r1.sym_sh with
              | Access.out_of_range x => Access.out_of_range x
              | Access.value str => Access.value (0, some { r1 with str_table := str }, m.2.2)
  | _, _ => Access.value (-1, reader, s)

/-- A file of 176 bytes whose only section header, inside the file, has type
`SHT_SYMTAB` and `sh_link = 2 ^ 32 - 1`: the header it links to lies far outside the
file. -/
def elf_bad_link : List Nat :=
  mk_ehdr 64 1 ++ mk_shdr 2 128 48 (2 ^ 32 - 1) 24 ++ mk_sym 1 0x401000 ++ mk_sym 5 0x401020

/-- A file of 64 bytes, the ELF header alone, that declares one section header at
offset `2 ^ 62`. -/
def elf_far_table : List Nat := mk_ehdr (2 ^ 62) 1

/-- The file `elf_foo_bar` with `sh_size = 2 ^ 64 - 1` declared for the symbol-table
section. -/
def elf_huge_symtab : List Nat :=
  mk_ehdr 64 2 ++ mk_shdr 2 192 (2 ^ 64 - 1) 1 24 ++ mk_shdr 3 240 9 0 0 ++
  mk_sym 1 0x401000 ++ mk_sym 5 0x401020 ++ foo_bar_strtab

/-- The struct `SymbolReader_Init` leaves for `elf_huge_symtab` in `demo_sys`. -/
def huge_reader : SymbolReader :=
  { ehdr := 4096, shdrs := 4160, sym_sh := 4160, sym_table := 4288,
    sym_count := 768614336404564650, str_table := 4336, fsize := 249, fd := 3 }

/-- The process state `SymbolReader_Init` leaves for `elf_huge_symtab` in `demo_sys`. -/
def huge_state : Sys :=
  (SymbolReader_Init (some SymbolReader.zero) (some ELF_FILE_PATH)
    (demo_sys (regular elf_huge_symtab))).2.2

/-- A filter that returns `1`, leaves the reader alone and counts its calls in the
caller's state. -/
def tick_filter : sym_filter_t Nat := fun reader _ n => (1, reader, n + 1)

/-- An action that counts its calls in the caller's state and writes
`reader->sym_count = 0` once the count has reached two. -/
def stop_at_two_action : sym_action_t Nat := fun reader _ n =>
  (if 2 ≤ n + 1 then { reader with sym_count := 0 } else reader, n + 1)

/-! ## The section scan -/

theorem find_symtab_none (ld : Nat → Nat) (shdrs : Nat) (k i : Nat)
    (h : ∀ j, i ≤ j → j < i + k → sh_type ld (shdrs + SHDR_SIZE * j) ≠ SHT_SYMTAB) :
    find_symtab ld shdrs k i = 0 := by
  induction k generalizing i with
  | zero => rfl
  | succ k ih =>
    have h0 := h i (le_refl i) (by omega)
    simp only [find_symtab, h0, if_false]
    exact ih (i + 1) (fun j h1 h2 => h j (by omega) (by omega))

theorem find_symtab_first (ld : Nat → Nat) (shdrs : Nat) (k i j : Nat)
    (hij : i ≤ j) (hjk : j < i + k)
    (hj : sh_type ld (shdrs + SHDR_SIZE * j) = SHT_SYMTAB)
    (hlt : ∀ l, i ≤ l → l < j → sh_type ld (shdrs + SHDR_SIZE * l) ≠ SHT_SYMTAB) :
    find_symtab ld shdrs k i = shdrs + SHDR_SIZE * j := by
  induction k generalizing i with
  | zero => omega
  | succ k ih =>
    by_cases e : i = j
    · subst e
      simp only [find_symtab, hj, if_true]
    · have h0 := hlt i (le_refl i) (by omega)
      simp only [find_symtab, h0, if_false]
      exact ih (i + 1) (by omega) (by omega) (fun l h1 h2 => hlt l (by omega) h2)

/-- The scan either finds the first matching header in its window or leaves `NULL`. -/
theorem find_symtab_cases (ld : Nat → Nat) (shdrs : Nat) (k i : Nat) :
    (find_symtab ld shdrs k i = 0 ∧
      ∀ j, i ≤ j → j < i + k → sh_type ld (shdrs + SHDR_SIZE * j) ≠ SHT_SYMTAB) ∨
    (∃ j, i ≤ j ∧ j < i + k ∧ sh_type ld (shdrs + SHDR_SIZE * j) = SHT_SYMTAB ∧
      (∀ l, i ≤ l → l < j → sh_type ld (shdrs + SHDR_SIZE * l) ≠ SHT_SYMTAB) ∧
      find_symtab ld shdrs k i = shdrs + SHDR_SIZE * j) := by
  by_cases h : ∃ j, i ≤ j ∧ j < i + k ∧ sh_type ld (shdrs + SHDR_SIZE * j) = SHT_SYMTAB
  · right
    classical
    let j := Nat.find h
    have hj := Nat.find_spec h
    have hmin : ∀ l, i ≤ l → l < j → sh_type ld (shdrs + SHDR_SIZE * l) ≠ SHT_SYMTAB := by
      intro l h1 h2 h3
      exact Nat.find_min h h2 ⟨h1, by omega, h3⟩
    exact ⟨j, hj.1, hj.2.1, hj.2.2, hmin, find_symtab_first ld shdrs k i j hj.1 hj.2.1 hj.2.2 hmin⟩
  · left
    have h' : ∀ j, i ≤ j → j < i + k → sh_type ld (shdrs + SHDR_SIZE * j) ≠ SHT_SYMTAB :=
      fun j h1 h2 h3 => h ⟨j, h1, h2, h3⟩
    exact ⟨find_symtab_none ld shdrs k i h', h'⟩

theorem fresh_addr_ge (maps : List Mapping) : 4096 ≤ fresh_addr maps := by
  unfold fresh_addr; omega

theorem fresh_addr_ne_failed (maps : List Mapping) : fresh_addr maps ≠ MAP_FAILED := by
  unfold fresh_addr MAP_FAILED; omega

theorem sys_mmap_addr (s : Sys) (len : Nat) (fd : Int) :
    (sys_mmap s len fd).1 = MAP_FAILED ∨ 4096 ≤ (sys_mmap s len fd).1 := by
  unfold sys_mmap
  split
  · split
    · exact Or.inl rfl
    · exact Or.inr (fresh_addr_ge _)
  · exact Or.inl rfl

theorem map_elf_header_ehdr (r : SymbolReader) (fd : Int) (s : Sys) (rm : SymbolReader)
    (sm : Sys) (h : map_elf_header r fd s = (0, rm, sm)) : 4096 ≤ rm.ehdr := by
  unfold map_elf_header at h
  dsimp only at h
  split at h
  · simp at h
  · rename_i st_size _
    simp only [Prod.mk.injEq] at h
    obtain ⟨h1, h2, _⟩ := h
    subst h2
    dsimp only at h1 ⊢
    rcases sys_mmap_addr (sys_fstat s fd).2 (st_size % 2 ^ 64) fd with e | e
    · rw [if_pos e] at h1
      exact absurd h1 (by decide)
    · exact e

theorem parse_symbol_header_found (r : SymbolReader) (s : Sys) (j : Nat)
    (h0 : 0 < r.ehdr)
    (hf : find_symtab (load8 s) (SECTION_HEADERS (load8 s) r.ehdr)
      (SECTION_COUNT (load8 s) r.ehdr) 0 = SECTION_HEADERS (load8 s) r.ehdr + SHDR_SIZE * j) :
    parse_symbol_header r s =
      (0, { r with
        shdrs := SECTION_HEADERS (load8 s) r.ehdr,
        sym_sh := SECTION_HEADERS (load8 s) r.ehdr + SHDR_SIZE * j,
        sym_count := sh_size (load8 s) (SECTION_HEADERS (load8 s) r.ehdr + SHDR_SIZE * j) / SYM_SIZE }) := by
  have hne : SECTION_HEADERS (load8 s) r.ehdr + SHDR_SIZE * j ≠ 0 := by
    unfold SECTION_HEADERS; omega
  unfold parse_symbol_header
  simp only [hf, hne, if_false, SYMBOL_COUNT]

theorem parse_symbol_header_missing (r : SymbolReader) (s : Sys)
    (hf : find_symtab (load8 s) (SECTION_HEADERS (load8 s) r.ehdr)
      (SECTION_COUNT (load8 s) r.ehdr) 0 = 0) :
    parse_symbol_header r s =
      (-1, { r with shdrs := SECTION_HEADERS (load8 s) r.ehdr, sym_sh := 0 }) := by
  unfold parse_symbol_header
  simp only [hf, if_true]

theorem SymbolReader_Init_mapped (s : Sys) (r : SymbolReader) (path : String)
    (rm : SymbolReader) (sm : Sys) (hopen : (sys_open s path).1 ≠ -1)
    (hmap : map_elf_header r (sys_open s path).1 (sys_open s path).2 = (0, rm, sm)) :
    SymbolReader_Init (some r) (some path) s =
      if (parse_symbol_header rm sm).1 = -1 then
        (-1, some (parse_symbol_header rm sm).2,
          sys_close (sys_munmap sm (parse_symbol_header rm sm).2.ehdr
            (parse_symbol_header rm sm).2.fsize) (sys_open s path).1)
      else
        (0, some { (parse_symbol_header rm sm).2 with
            sym_table := SYMBOL_TABLE (load8 sm) (parse_symbol_header rm sm).2.ehdr
              (parse_symbol_header rm sm).2.sym_sh,
            str_table := STRING_TABLE (load8 sm) (parse_symbol_header rm sm).2.ehdr
              (parse_symbol_header rm sm).2.shdrs (parse_symbol_header rm sm).2.sym_sh }, sm) := by
  simp only [SymbolReader_Init, hopen, hmap, if_false]
  split <;> simp_all

/-! ## Initialisation: the symbol count and the selected section -/

/-- On the loads as `load8` serves them: for every file that was opened and mapped and
in which a section header of index below `e_shnum` has type `SHT_SYMTAB`,
`SymbolReader_Init` returns `0`, the selected header `sym_sh` is one of the first
`e_shnum` headers and has that type, and `sym_count` is `sh_size / 24` of the selected
header rounded down. -/
theorem SymbolReader_Init_sym_count_unchecked (s : Sys) (r : SymbolReader) (path : String)
    (rm : SymbolReader) (sm : Sys) (hopen : (sys_open s path).1 ≠ -1)
    (hmap : map_elf_header r (sys_open s path).1 (sys_open s path).2 = (0, rm, sm))
    (i : Nat) (hi : i < e_shnum (load8 sm) rm.ehdr)
    (ht : sh_type (load8 sm) (rm.ehdr + e_shoff (load8 sm) rm.ehdr + 64 * i) = SHT_SYMTAB) :
    ∃ r1 : SymbolReader,
      SymbolReader_Init (some r) (some path) s = (0, some r1, sm) ∧
      (∃ j, j < e_shnum (load8 sm) rm.ehdr ∧
        r1.sym_sh = rm.ehdr + e_shoff (load8 sm) rm.ehdr + 64 * j ∧
        sh_type (load8 sm) r1.sym_sh = SHT_SYMTAB) ∧
      r1.sym_count = sh_size (load8 sm) r1.sym_sh / 24 ∧
      24 * r1.sym_count ≤ sh_size (load8 sm) r1.sym_sh ∧
      sh_size (load8 sm) r1.sym_sh < 24 * r1.sym_count + 24 := by
  have h0 : 0 < rm.ehdr := by
    have := map_elf_header_ehdr r _ _ rm sm hmap
    omega
  rcases find_symtab_cases (load8 sm) (SECTION_HEADERS (load8 sm) rm.ehdr)
      (SECTION_COUNT (load8 sm) rm.ehdr) 0 with ⟨_, hnone⟩ | ⟨j, _, hjn, hj, _, hf⟩
  · exact absurd ht (by
      simpa [SECTION_HEADERS, SHDR_SIZE] using
        hnone i (Nat.zero_le i) (by simpa [SECTION_COUNT] using hi))
  · have hp := parse_symbol_header_found rm sm j h0 hf
    have hI := SymbolReader_Init_mapped s r path rm sm hopen hmap
    rw [hp] at hI
    simp only [show ((0 : Int) = -1) = False from by decide, if_false] at hI
    refine ⟨_, hI, ⟨j, ?_, ?_, ?_⟩, ?_, ?_, ?_⟩
    · simpa [SECTION_COUNT] using hjn
    · simp [SECTION_HEADERS, SHDR_SIZE]
    · simpa [SECTION_HEADERS, SHDR_SIZE] using hj
    · simp [SYM_SIZE]
    · exact Nat.mul_div_le _ 24
    · exact Nat.lt_mul_div_succ _ (by decide)

/-- On the loads as `load8` serves them: given that open, stat and map succeeded,
`SymbolReader_Init` returns `-1` exactly when no section header of index
`0 .. e_shnum - 1` has type `SHT_SYMTAB`, and so does `parse_symbol_header`; both fail
when `e_shnum` is `0`, and otherwise `SymbolReader_Init` returns `0`. -/
theorem SymbolReader_Init_fails_iff_unchecked (s : Sys) (r : SymbolReader) (path : String)
    (rm : SymbolReader) (sm : Sys) (hopen : (sys_open s path).1 ≠ -1)
    (hmap : map_elf_header r (sys_open s path).1 (sys_open s path).2 = (0, rm, sm)) :
    ((SymbolReader_Init (some r) (some path) s).1 = -1 ↔
      ∀ i, i < e_shnum (load8 sm) rm.ehdr →
        sh_type (load8 sm) (rm.ehdr + e_shoff (load8 sm) rm.ehdr + 64 * i) ≠ SHT_SYMTAB) ∧
    ((parse_symbol_header rm sm).1 = -1 ↔
      ∀ i, i < e_shnum (load8 sm) rm.ehdr →
        sh_type (load8 sm) (rm.ehdr + e_shoff (load8 sm) rm.ehdr + 64 * i) ≠ SHT_SYMTAB) ∧
    (e_shnum (load8 sm) rm.ehdr = 0 → (SymbolReader_Init (some r) (some path) s).1 = -1) ∧
    ((SymbolReader_Init (some r) (some path) s).1 ≠ -1 →
      (SymbolReader_Init (some r) (some path) s).1 = 0) := by
  have h0 : 0 < rm.ehdr := by
    have := map_elf_header_ehdr r _ _ rm sm hmap
    omega
  have hI := SymbolReader_Init_mapped s r path rm sm hopen hmap
  have key : (parse_symbol_header rm sm).1 = -1 ↔
      ∀ i, i < e_shnum (load8 sm) rm.ehdr →
        sh_type (load8 sm) (rm.ehdr + e_shoff (load8 sm) rm.ehdr + 64 * i) ≠ SHT_SYMTAB := by
    rcases find_symtab_cases (load8 sm) (SECTION_HEADERS (load8 sm) rm.ehdr)
        (SECTION_COUNT (load8 sm) rm.ehdr) 0 with ⟨hz, hnone⟩ | ⟨j, _, hjn, hj, _, hf⟩
    · rw [parse_symbol_header_missing rm sm hz]
      refine ⟨fun _ i hi => ?_, fun _ => rfl⟩
      simpa [SECTION_HEADERS, SHDR_SIZE] using
        hnone i (Nat.zero_le i) (by simpa [SECTION_COUNT] using hi)
    · rw [parse_symbol_header_found rm sm j h0 hf]
      constructor
      · intro h
        exact absurd (show (0 : Int) = -1 from h) (by decide)
      · intro h
        exact absurd (by simpa [SECTION_HEADERS, SHDR_SIZE] using hj)
          (h j (by simpa [SECTION_COUNT] using hjn))
  have hiff : (SymbolReader_Init (some r) (some path) s).1 = -1 ↔
      (parse_symbol_header rm sm).1 = -1 := by
    rw [hI]
    by_cases hp : (parse_symbol_header rm sm).1 = -1
    · simp [hp]
    · simp [hp]
  refine ⟨hiff.trans key, key, ?_, ?_⟩
  · intro hz
    exact (hiff.trans key).2 (fun i hi => by omega)
  · intro hne
    rw [hI] at hne ⊢
    by_cases hp : (parse_symbol_header rm sm).1 = -1
    · simp [hp] at hne
    · simp [hp]

theorem demo_mapped_eq (f : File) (h : (demo_mapped f).1 = 0) :
    map_elf_header SymbolReader.zero (sys_open (demo_sys f) ELF_FILE_PATH).1
      (sys_open (demo_sys f) ELF_FILE_PATH).2 = (0, (demo_mapped f).2.1, (demo_mapped f).2.2) := by
  rw [← h]
  rfl

theorem pair_eq_of_fst {α : Type} (x : Int × α) (h : x.1 = 0) : x = (0, x.2) := by
  rw [← h]

theorem process_loop_unfold {σ : Type} (a : sym_action_t σ) (f : sym_filter_t σ) (i : Nat)
    (st : Run σ) :
    process_loop a f i st =
      if i < st.reader.sym_count % 2 ^ 64 then
        process_loop a f ((i + 1) % 2 ^ 64) (process_step a f i st)
      else st := by
  rw [process_loop]

theorem process_loop_done {σ : Type} (a : sym_action_t σ) (f : sym_filter_t σ) (i : Nat)
    (st : Run σ) (h : ¬ i < st.reader.sym_count % 2 ^ 64) :
    process_loop a f i st = st := by
  rw [process_loop, if_neg h]

theorem process_loop_next {σ : Type} (a : sym_action_t σ) (f : sym_filter_t σ) (i : Nat)
    (st : Run σ) (h : i < st.reader.sym_count % 2 ^ 64) :
    process_loop a f i st = process_loop a f (i + 1) (process_step a f i st) := by
  have h1 : (i + 1) % 2 ^ 64 = i + 1 := Nat.mod_eq_of_lt (by omega)
  rw [process_loop, if_pos h, h1]

theorem process_step_calls {σ : Type} (a : sym_action_t σ) (f : sym_filter_t σ) (i : Nat)
    (st : Run σ) :
    (process_step a f i st).calls =
      st.calls ++ (Call.filter i (st.reader.sym_table + SYM_SIZE * i)
          (f st.reader (st.reader.sym_table + SYM_SIZE * i) st.user).1 ::
        (if (f st.reader (st.reader.sym_table + SYM_SIZE * i) st.user).1 ≠ 0 then
          [Call.action i
            ((f st.reader (st.reader.sym_table + SYM_SIZE * i) st.user).2.1.sym_table +
              SYM_SIZE * i)]
        else [])) := by
  unfold process_step
  dsimp only
  split <;> simp

theorem process_step_keeps {σ : Type} (a : sym_action_t σ) (f : sym_filter_t σ)
    (hf : filter_keeps f) (ha : action_keeps a) (i : Nat) (st : Run σ) :
    keeps_table st.reader (process_step a f i st).reader := by
  unfold process_step
  dsimp only
  have h1 := hf st.reader (st.reader.sym_table + SYM_SIZE * i) st.user
  split
  · have h2 := ha (f st.reader (st.reader.sym_table + SYM_SIZE * i) st.user).2.1
      ((f st.reader (st.reader.sym_table + SYM_SIZE * i) st.user).2.1.sym_table + SYM_SIZE * i)
      (f st.reader (st.reader.sym_table + SYM_SIZE * i) st.user).2.2
    exact ⟨h2.1.trans h1.1, h2.2.trans h1.2⟩
  · exact h1

/-- With callbacks that keep the table, the loop from counter `i` presents the entries
`i .. sym_count - 1` one after the other and leaves the table as it is. -/
theorem process_loop_blocks {σ : Type} (a : sym_action_t σ) (f : sym_filter_t σ)
    (hf : filter_keeps f) (ha : action_keeps a) (k : Nat) :
    ∀ (i : Nat) (st : Run σ), st.reader.sym_count < 2 ^ 64 → i + k = st.reader.sym_count →
      keeps_table st.reader (process_loop a f i st).reader ∧
      ∃ rets : List Int, rets.length = k ∧
        (process_loop a f i st).calls = st.calls ++ blocks st.reader.sym_table i rets := by
  induction k with
  | zero =>
    intro i st hb hi
    have hd : ¬ i < st.reader.sym_count % 2 ^ 64 := by
      rw [Nat.mod_eq_of_lt hb]; omega
    rw [process_loop_done a f i st hd]
    exact ⟨⟨rfl, rfl⟩, [], rfl, by simp [blocks]⟩
  | succ k ih =>
    intro i st hb hi
    have hc : i < st.reader.sym_count % 2 ^ 64 := by
      rw [Nat.mod_eq_of_lt hb]; omega
    rw [process_loop_next a f i st hc]
    have hk := process_step_keeps a f hf ha i st
    have hfk := hf st.reader (st.reader.sym_table + SYM_SIZE * i) st.user
    obtain ⟨hk2, rets, hlen, hcalls⟩ := ih (i + 1) (process_step a f i st)
      (by rw [hk.1]; exact hb) (by rw [hk.1]; omega)
    refine ⟨⟨hk2.1.trans hk.1, hk2.2.trans hk.2⟩,
      (f st.reader (st.reader.sym_table + SYM_SIZE * i) st.user).1 :: rets, by simp [hlen], ?_⟩
    rw [hcalls, process_step_calls, hk.2, hfk.2]
    simp [blocks]

theorem filter_calls_append (xs ys : List Call) :
    filter_calls (xs ++ ys) = filter_calls xs ++ filter_calls ys := by
  induction xs with
  | nil => rfl
  | cons c cs ih => cases c <;> simp [filter_calls, ih]

theorem action_calls_append (xs ys : List Call) :
    action_calls (xs ++ ys) = action_calls xs ++ action_calls ys := by
  induction xs with
  | nil => rfl
  | cons c cs ih => cases c <;> simp [action_calls, ih]

theorem filter_calls_blocks (t : Nat) (rets : List Int) :
    ∀ i, filter_calls (blocks t i rets) = entries_from t i rets.length := by
  induction rets with
  | nil => intro i; rfl
  | cons ret rets ih =>
    intro i
    by_cases h : ret = 0 <;> simp [blocks, filter_calls, entries_from, ih, h]

theorem action_calls_blocks (t : Nat) (rets : List Int) :
    ∀ i, action_calls (blocks t i rets) = accepted_calls (blocks t i rets) := by
  induction rets with
  | nil => intro i; rfl
  | cons ret rets ih =>
    intro i
    by_cases h : ret = 0 <;> simp [blocks, action_calls, accepted_calls, ih, h]

theorem action_calls_blocks_sublist (t : Nat) (rets : List Int) :
    ∀ i, (action_calls (blocks t i rets)).Sublist (entries_from t i rets.length) := by
  induction rets with
  | nil => intro i; exact List.Sublist.slnil
  | cons ret rets ih =>
    intro i
    by_cases h : ret = 0
    · simp only [blocks, h, ne_eq, not_true_eq_false, if_false, List.nil_append, action_calls,
        List.length_cons, entries_from]
      exact List.Sublist.cons _ (ih (i + 1))
    · simp only [blocks, h, ne_eq, not_false_eq_true, if_true, List.singleton_append,
        action_calls, List.length_cons, entries_from]
      exact List.Sublist.cons₂ _ (ih (i + 1))

theorem entries_from_eq_map (t : Nat) (k : Nat) :
    ∀ i, entries_from t i k = (List.range' i k).map (fun j => (j, t + SYM_SIZE * j)) := by
  induction k with
  | zero => intro i; rfl
  | succ k ih => intro i; simp [entries_from, ih, List.range'_succ]

theorem entries_eq_map (r : SymbolReader) :
    entries r = (List.range r.sym_count).map (fun i => (i, r.sym_table + 24 * i)) := by
  rw [entries, entries_from_eq_map, List.range_eq_range']
  rfl

theorem load_lt (ld : Nat → Nat) (h : ∀ a, ld a < 256) (n : Nat) :
    ∀ a, load ld a n < 256 ^ n := by
  induction n with
  | zero => intro a; simp [load]
  | succ n ih =>
    intro a
    have h1 := h a
    have h2 := ih (a + 1)
    simp only [load, pow_succ]
    nlinarith

theorem load8_lt (s : Sys) (a : Nat) : load8 s a < 256 := by
  unfold load8
  split <;> exact Nat.mod_lt _ (by decide)

theorem SYMBOL_COUNT_lt (s : Sys) (sh : Nat) : SYMBOL_COUNT (load8 s) sh < 2 ^ 64 := by
  have h := load_lt (load8 s) (load8_lt s) 8 (sh + 32)
  unfold SYMBOL_COUNT sh_size SYM_SIZE
  have h3 : load (load8 s) (sh + 32) 8 / 24 ≤ load (load8 s) (sh + 32) 8 := Nat.div_le_self _ _
  have h4 : (256 : Nat) ^ 8 = 2 ^ 64 := by norm_num
  omega

theorem parse_symbol_header_count (r : SymbolReader) (s : Sys)
    (h : (parse_symbol_header r s).1 ≠ -1) : (parse_symbol_header r s).2.sym_count < 2 ^ 64 := by
  unfold parse_symbol_header at h ⊢
  dsimp only at h ⊢
  split
  · rename_i h1
    rw [if_pos h1] at h
    exact absurd rfl h
  · exact SYMBOL_COUNT_lt s _

/-- An initialised reader holds a count that fits its 64-bit field. -/
theorem SymbolReader_Init_count_lt (reader : Option SymbolReader) (fpath : Option String)
    (s : Sys) (r : SymbolReader) (s1 : Sys)
    (h : SymbolReader_Init reader fpath s = (0, some r, s1)) : r.sym_count < 2 ^ 64 := by
  unfold SymbolReader_Init at h
  split at h
  · rename_i r0 path
    dsimp only at h
    split at h
    · exact absurd (show (-1 : Int) = 0 from congrArg Prod.fst h) (by decide)
    · split at h
      · exact absurd (show (-1 : Int) = 0 from congrArg Prod.fst h) (by decide)
      · split at h
        · exact absurd (show (-1 : Int) = 0 from congrArg Prod.fst h) (by decide)
        · rename_i hp
          have h1 := parse_symbol_header_count _ _ hp
          have h2 := congrArg (fun x => x.2.1) h
          dsimp only at h2
          rw [Option.some.injEq] at h2
          rw [← h2]
          exact h1
  · exact absurd (show (-1 : Int) = 0 from congrArg Prod.fst h) (by decide)

theorem SymbolReader_ProcessSymbols_eq {σ : Type} (r : SymbolReader) (a : sym_action_t σ)
    (filter : Option (sym_filter_t σ)) (u : σ) :
    SymbolReader_ProcessSymbols (some r) (some a) filter u =
      (some (process_loop a (filter_of filter) 0 { reader := r, user := u, calls := [] }).reader,
        (process_loop a (filter_of filter) 0 { reader := r, user := u, calls := [] }).user,
        (process_loop a (filter_of filter) 0 { reader := r, user := u, calls := [] }).calls) := by
  cases filter <;> rfl

/-- With callbacks that keep the table, a traversal of a reader whose count fits its
field makes the calls `blocks sym_table 0 rets` for a list `rets` of `sym_count` filter
results. -/
theorem SymbolReader_ProcessSymbols_blocks {σ : Type} (r : SymbolReader)
    (hr : r.sym_count < 2 ^ 64) (a : sym_action_t σ) (filter : Option (sym_filter_t σ)) (u : σ)
    (ha : action_keeps a) (hf : filter_keeps (filter_of filter)) :
    ∃ rets : List Int, rets.length = r.sym_count ∧
      (SymbolReader_ProcessSymbols (some r) (some a) filter u).2.2 = blocks r.sym_table 0 rets := by
  rw [SymbolReader_ProcessSymbols_eq]
  obtain ⟨_, rets, hlen, hcalls⟩ := process_loop_blocks a (filter_of filter) hf ha r.sym_count 0
    { reader := r, user := u, calls := [] } hr (by simp)
  exact ⟨rets, hlen, by simpa using hcalls⟩

/-- A filter that returns `0` on every entry keeps the action from being called. -/
theorem process_loop_reject {σ : Type} (a : sym_action_t σ) (f : sym_filter_t σ)
    (hrej : ∀ r sym u, (f r sym u).1 = 0) (i : Nat) (st : Run σ) :
    action_calls (process_loop a f i st).calls = action_calls st.calls := by
  induction i, st using process_loop.induct a f with
  | case1 i st h ih =>
    rw [process_loop, if_pos h, ih, process_step_calls, action_calls_append]
    simp [hrej, action_calls]
  | case2 i st h =>
    rw [process_loop, if_neg h]

/-- Two runs of the loop, one with a filter that accepts every entry and has no effect
and one with `dummy_filter`, stay in step. -/
theorem process_loop_accept_all {σ : Type} (a : sym_action_t σ) (f : sym_filter_t σ)
    (hacc : ∀ r sym u, (f r sym u).1 ≠ 0 ∧ (f r sym u).2 = (r, u)) (i : Nat) (st : Run σ) :
    ∀ st1 : Run σ, st1.reader = st.reader → st1.user = st.user →
      action_calls st1.calls = action_calls st.calls →
      filter_calls st1.calls = filter_calls st.calls →
      (process_loop a dummy_filter i st1).reader = (process_loop a f i st).reader ∧
      (process_loop a dummy_filter i st1).user = (process_loop a f i st).user ∧
      action_calls (process_loop a dummy_filter i st1).calls =
        action_calls (process_loop a f i st).calls ∧
      filter_calls (process_loop a dummy_filter i st1).calls =
        filter_calls (process_loop a f i st).calls := by
  induction i, st using process_loop.induct a f with
  | case1 i st h ih =>
    intro st1 h1 h2 h3 h4
    have h' : i < st1.reader.sym_count % 2 ^ 64 := by rw [h1]; exact h
    rw [process_loop_unfold a f, if_pos h, process_loop_unfold a dummy_filter, if_pos h']
    have hf := hacc st.reader (st.reader.sym_table + SYM_SIZE * i) st.user
    have e1 : (f st.reader (st.reader.sym_table + SYM_SIZE * i) st.user).2.1 = st.reader := by
      rw [hf.2]
    have e2 : (f st.reader (st.reader.sym_table + SYM_SIZE * i) st.user).2.2 = st.user := by
      rw [hf.2]
    apply ih
    · simp [process_step, dummy_filter, hf.1, e1, e2, h1, h2]
    · simp [process_step, dummy_filter, hf.1, e1, e2, h1, h2]
    · simp [process_step_calls, dummy_filter, hf.1, e1, action_calls_append, action_calls,
        h1, h3]
    · simp [process_step_calls, dummy_filter, hf.1, e1, filter_calls_append, filter_calls,
        h1, h4]
  | case2 i st h =>
    intro st1 h1 h2 h3 h4
    have h' : ¬ i < st1.reader.sym_count % 2 ^ 64 := by rw [h1]; exact h
    rw [process_loop_unfold a f, if_neg h, process_loop_unfold a dummy_filter, if_neg h']
    exact ⟨h1, h2, h3, h4⟩

theorem process_step_filter_calls {σ : Type} (a : sym_action_t σ) (f : sym_filter_t σ) (i : Nat)
    (st : Run σ) :
    filter_calls (process_step a f i st).calls =
      filter_calls st.calls ++ [(i, st.reader.sym_table + SYM_SIZE * i)] := by
  rw [process_step_calls, filter_calls_append]
  split <;> simp [filter_calls]

theorem process_step_action_calls {σ : Type} (a : sym_action_t σ) (f : sym_filter_t σ) (i : Nat)
    (st : Run σ) (h : (f st.reader (st.reader.sym_table + SYM_SIZE * i) st.user).1 ≠ 0) :
    action_calls (process_step a f i st).calls =
      action_calls st.calls ++
        [(i, (f st.reader (st.reader.sym_table + SYM_SIZE * i) st.user).2.1.sym_table +
          SYM_SIZE * i)] := by
  rw [process_step_calls, action_calls_append, if_pos h]
  simp [action_calls]

theorem process_step_keeps_count {σ : Type} (a : sym_action_t σ) (f : sym_filter_t σ)
    (hf : filter_keeps_count f) (ha : action_keeps_count a) (i : Nat) (st : Run σ) :
    (process_step a f i st).reader.sym_count = st.reader.sym_count := by
  unfold process_step
  dsimp only
  have h1 := hf st.reader (st.reader.sym_table + SYM_SIZE * i) st.user
  split
  · have h2 := ha (f st.reader (st.reader.sym_table + SYM_SIZE * i) st.user).2.1
      ((f st.reader (st.reader.sym_table + SYM_SIZE * i) st.user).2.1.sym_table + SYM_SIZE * i)
      (f st.reader (st.reader.sym_table + SYM_SIZE * i) st.user).2.2
    exact h2.trans h1
  · exact h1

/-- With callbacks that keep the count, the loop from counter `i` evaluates the filter
on the indices `i .. sym_count - 1` in this order, and calls the action on the same
indices when the filter accepts every entry. -/
theorem process_loop_indices {σ : Type} (a : sym_action_t σ) (f : sym_filter_t σ)
    (hf : filter_keeps_count f) (ha : action_keeps_count a) (k : Nat) :
    ∀ (i : Nat) (st : Run σ), st.reader.sym_count < 2 ^ 64 → i + k = st.reader.sym_count →
      (filter_calls (process_loop a f i st).calls).map Prod.fst =
        (filter_calls st.calls).map Prod.fst ++ List.range' i k ∧
      ((∀ r sym u, (f r sym u).1 ≠ 0) →
        (action_calls (process_loop a f i st).calls).map Prod.fst =
          (action_calls st.calls).map Prod.fst ++ List.range' i k) := by
  induction k with
  | zero =>
    intro i st hb hi
    have hd : ¬ i < st.reader.sym_count % 2 ^ 64 := by
      rw [Nat.mod_eq_of_lt hb]; omega
    rw [process_loop_done a f i st hd]
    simp
  | succ k ih =>
    intro i st hb hi
    have hc : i < st.reader.sym_count % 2 ^ 64 := by
      rw [Nat.mod_eq_of_lt hb]; omega
    rw [process_loop_next a f i st hc]
    have hk := process_step_keeps_count a f hf ha i st
    obtain ⟨h1, h2⟩ := ih (i + 1) (process_step a f i st)
      (by rw [hk]; exact hb) (by rw [hk]; omega)
    constructor
    · rw [h1, process_step_filter_calls]
      simp [List.range'_succ]
    · intro hacc
      rw [h2 hacc, process_step_action_calls a f i st (hacc _ _ _)]
      simp [List.range'_succ]

theorem demo_init_eq :
    SymbolReader_Init (some SymbolReader.zero) (some ELF_FILE_PATH)
      (demo_sys (regular elf_foo_bar)) = (0, some demo_reader, demo_state) := by
  have h1 : (SymbolReader_Init (some SymbolReader.zero) (some ELF_FILE_PATH)
      (demo_sys (regular elf_foo_bar))).1 = 0 := by decide
  have h2 : (SymbolReader_Init (some SymbolReader.zero) (some ELF_FILE_PATH)
      (demo_sys (regular elf_foo_bar))).2.1 = some demo_reader := by decide
  rw [← h1, ← h2]
  rfl

theorem count_action_keeps : action_keeps count_action := fun _ _ _ => ⟨rfl, rfl⟩

theorem even_filter_keeps : filter_keeps even_filter := fun _ _ _ => ⟨rfl, rfl⟩

/-- C4 (amended): for every initialised reader and every action and filter that do not
write `sym_table` or `sym_count` of the reader, the action is called on exactly the
entries on which the filter returned a non-zero value, in ascending index order: the
action calls are the accepted filter calls, a subsequence of the entries
`0 .. sym_count - 1`, and the calls come in blocks, the filter on entry `i`, then the
action on entry `i` when it was accepted, then the filter on entry `i + 1`. -/
theorem SymbolReader_ProcessSymbols_action_order {σ : Type} (reader0 : Option SymbolReader)
    (fpath : Option String) (s0 : Sys) (r : SymbolReader) (s : Sys)
    (hinit : SymbolReader_Init reader0 fpath s0 = (0, some r, s))
    (action : sym_action_t σ) (filter : Option (sym_filter_t σ)) (u : σ)
    (ha : action_keeps action) (hf : filter_keeps (filter_of filter)) :
    action_calls (SymbolReader_ProcessSymbols (some r) (some action) filter u).2.2 =
      accepted_calls (SymbolReader_ProcessSymbols (some r) (some action) filter u).2.2 ∧
    (action_calls (SymbolReader_ProcessSymbols (some r) (some action) filter u).2.2).Sublist
      ((List.range r.sym_count).map (fun i => (i, r.sym_table + 24 * i))) ∧
    ∃ rets : List Int, rets.length = r.sym_count ∧
      (SymbolReader_ProcessSymbols (some r) (some action) filter u).2.2 =
        blocks r.sym_table 0 rets := by
  obtain ⟨rets, hlen, hcalls⟩ := SymbolReader_ProcessSymbols_blocks r
    (SymbolReader_Init_count_lt reader0 fpath s0 r s hinit) action filter u ha hf
  refine ⟨?_, ?_, rets, hlen, hcalls⟩
  · rw [hcalls, action_calls_blocks]
  · rw [hcalls, ← entries_eq_map, entries, ← hlen]
    exact action_calls_blocks_sublist _ _ _

/-- C4 (amended) at the reader of `elf_foo_bar`, a counting action and the filter that
accepts the entries of even index. -/
theorem SymbolReader_ProcessSymbols_action_order_witness :
    action_calls (SymbolReader_ProcessSymbols (some demo_reader) (some count_action)
        (some even_filter) 0).2.2 =
      accepted_calls (SymbolReader_ProcessSymbols (some demo_reader) (some count_action)
        (some even_filter) 0).2.2 ∧
    (action_calls (SymbolReader_ProcessSymbols (some demo_reader) (some count_action)
        (some even_filter) 0).2.2).Sublist
      ((List.range demo_reader.sym_count).map (fun i => (i, demo_reader.sym_table + 24 * i))) ∧
    ∃ rets : List Int, rets.length = demo_reader.sym_count ∧
      (SymbolReader_ProcessSymbols (some demo_reader) (some count_action)
        (some even_filter) 0).2.2 = blocks demo_reader.sym_table 0 rets :=
  SymbolReader_ProcessSymbols_action_order (some SymbolReader.zero) (some ELF_FILE_PATH)
    (demo_sys (regular elf_foo_bar)) demo_reader demo_state demo_init_eq count_action
    (some even_filter) 0 count_action_keeps even_filter_keeps

/-- C4 as stated fails, at two inputs on the initialised reader of `elf_foo_bar` (two
entries).  With no filter and the action that writes `reader->sym_count = 3`, the action
is called on the indices 0, 1 and 2, which is no subsequence of `0 .. sym_count - 1`.
With the filter that returns `1` and advances `reader->sym_table` by one entry, the
filter accepts the entries at 4288 and 4336 and the action is called on the entries at
4312 and 4360. -/
theorem SymbolReader_ProcessSymbols_action_order_fails :
    SymbolReader_Init (some SymbolReader.zero) (some ELF_FILE_PATH)
      (demo_sys (regular elf_foo_bar)) = (0, some demo_reader, demo_state) ∧
    demo_reader.sym_count = 2 ∧
    action_calls (SymbolReader_ProcessSymbols (some demo_reader) (some grow_action)
      none 0).2.2 = [(0, 4288), (1, 4312), (2, 4336)] ∧
    ¬ (action_calls (SymbolReader_ProcessSymbols (some demo_reader) (some grow_action)
        none 0).2.2).Sublist
      ((List.range demo_reader.sym_count).map (fun i => (i, demo_reader.sym_table + 24 * i))) ∧
    (SymbolReader_ProcessSymbols (some demo_reader) (some count_action)
      (some shift_filter) 0).2.2 =
        [Call.filter 0 4288 1, Call.action 0 4312, Call.filter 1 4336 1, Call.action 1 4360] ∧
    action_calls (SymbolReader_ProcessSymbols (some demo_reader) (some count_action)
      (some shift_filter) 0).2.2 ≠
    accepted_calls (SymbolReader_ProcessSymbols (some demo_reader) (some count_action)
      (some shift_filter) 0).2.2 := by
  have h : action_calls (SymbolReader_ProcessSymbols (some demo_reader) (some grow_action)
      none 0).2.2 = [(0, 4288), (1, 4312), (2, 4336)] := by
    simp [SymbolReader_ProcessSymbols, process_loop, process_step, dummy_filter, grow_action,
      demo_reader, action_calls, SYM_SIZE]
  have h2 : (SymbolReader_ProcessSymbols (some demo_reader) (some count_action)
      (some shift_filter) 0).2.2 =
        [Call.filter 0 4288 1, Call.action 0 4312, Call.filter 1 4336 1, Call.action 1 4360] := by
    simp [SymbolReader_ProcessSymbols, process_loop, process_step, shift_filter, count_action,
      demo_reader, SYM_SIZE]
  refine ⟨demo_init_eq, rfl, h, ?_, h2, ?_⟩
  · rw [h]
    decide
  · rw [h2]
    decide

/-- C5 (amended): for every initialised reader and every filter and action that do not
write `sym_count` of the reader, whatever values they return, the filter is evaluated
exactly `sym_count` times, once on each entry index `0, 1, .., sym_count - 1` in
ascending order: no index is skipped or visited twice, and no value returned by the
filter or the action ends the traversal early.  When the callbacks do not write
`sym_table` either, the entry presented at index `i` is the one at
`sym_table + 24 * i`. -/
theorem SymbolReader_ProcessSymbols_visits_all {σ : Type} (reader0 : Option SymbolReader)
    (fpath : Option String) (s0 : Sys) (r : SymbolReader) (s : Sys)
    (hinit : SymbolReader_Init reader0 fpath s0 = (0, some r, s))
    (action : sym_action_t σ) (filter : Option (sym_filter_t σ)) (u : σ)
    (ha : action_keeps_count action) (hf : filter_keeps_count (filter_of filter)) :
    (filter_calls (SymbolReader_ProcessSymbols (some r) (some action) filter u).2.2).map
      Prod.fst = List.range r.sym_count ∧
    (filter_calls (SymbolReader_ProcessSymbols (some r) (some action) filter u).2.2).length =
      r.sym_count ∧
    (action_keeps action → filter_keeps (filter_of filter) →
      filter_calls (SymbolReader_ProcessSymbols (some r) (some action) filter u).2.2 =
        (List.range r.sym_count).map (fun i => (i, r.sym_table + 24 * i))) := by
  have hr := SymbolReader_Init_count_lt reader0 fpath s0 r s hinit
  have h : (filter_calls (SymbolReader_ProcessSymbols (some r) (some action) filter u).2.2).map
      Prod.fst = List.range r.sym_count := by
    rw [SymbolReader_ProcessSymbols_eq]
    have h1 := (process_loop_indices action (filter_of filter) hf ha r.sym_count 0
      { reader := r, user := u, calls := [] } hr (by simp)).1
    rw [h1, List.range_eq_range']
    simp [filter_calls]
  refine ⟨h, ?_, ?_⟩
  · have h2 := congrArg List.length h
    simpa using h2
  · intro ha2 hf2
    obtain ⟨rets, hlen, hcalls⟩ := SymbolReader_ProcessSymbols_blocks r hr action filter u ha2 hf2
    rw [hcalls, filter_calls_blocks, hlen, ← entries_eq_map, entries]

/-- C5 (amended) at the reader of `elf_foo_bar`, the action that writes
`reader->sym_table = 0` and the filter that returns `-7` on every entry. -/
theorem SymbolReader_ProcessSymbols_visits_all_witness :
    (filter_calls (SymbolReader_ProcessSymbols (some demo_reader) (some untable_action)
        (some accept_filter) 0).2.2).map Prod.fst = List.range demo_reader.sym_count ∧
    (filter_calls (SymbolReader_ProcessSymbols (some demo_reader) (some untable_action)
        (some accept_filter) 0).2.2).length = demo_reader.sym_count :=
  ⟨(SymbolReader_ProcessSymbols_visits_all (some SymbolReader.zero) (some ELF_FILE_PATH)
      (demo_sys (regular elf_foo_bar)) demo_reader demo_state demo_init_eq untable_action
      (some accept_filter) 0 (fun _ _ _ => rfl) (fun _ _ _ => rfl)).1,
   (SymbolReader_ProcessSymbols_visits_all (some SymbolReader.zero) (some ELF_FILE_PATH)
      (demo_sys (regular elf_foo_bar)) demo_reader demo_state demo_init_eq untable_action
      (some accept_filter) 0 (fun _ _ _ => rfl) (fun _ _ _ => rfl)).2.1⟩

/-- C5 as stated fails: on the initialised reader of `elf_foo_bar` (two entries), with
no filter and the action that writes `reader->sym_count = 0`, the filter is evaluated
once, on entry 0 only: the traversal ends before entry 1. -/
theorem SymbolReader_ProcessSymbols_visits_all_fails :
    SymbolReader_Init (some SymbolReader.zero) (some ELF_FILE_PATH)
      (demo_sys (regular elf_foo_bar)) = (0, some demo_reader, demo_state) ∧
    demo_reader.sym_count = 2 ∧
    (SymbolReader_ProcessSymbols (some demo_reader) (some stop_action) none 0).2.2 =
      [Call.filter 0 4288 1, Call.action 0 4288] ∧
    (filter_calls (SymbolReader_ProcessSymbols (some demo_reader) (some stop_action)
      none 0).2.2).map Prod.fst = [0] ∧
    (filter_calls (SymbolReader_ProcessSymbols (some demo_reader) (some stop_action)
      none 0).2.2).map Prod.fst ≠ List.range demo_reader.sym_count ∧
    (filter_calls (SymbolReader_ProcessSymbols (some demo_reader) (some stop_action)
      none 0).2.2).length ≠ demo_reader.sym_count := by
  have h : (SymbolReader_ProcessSymbols (some demo_reader) (some stop_action) none 0).2.2 =
      [Call.filter 0 4288 1, Call.action 0 4288] := by
    simp [SymbolReader_ProcessSymbols, process_loop, process_step, dummy_filter, stop_action,
      demo_reader, SYM_SIZE]
  refine ⟨demo_init_eq, rfl, h, ?_, ?_, ?_⟩ <;> rw [h] <;> decide

/-- C6 (amended): for every reader and every action (also a `NULL` one), the call with
no filter and the call with a filter that accepts every entry and has no side effect (it
writes neither the reader struct nor the caller's state) leave the same reader struct
and the same caller state and make the same action calls, and the same filter calls, on
the same entries in the same order. -/
theorem SymbolReader_ProcessSymbols_null_filter {σ : Type} (reader : Option SymbolReader)
    (action : Option (sym_action_t σ)) (acc : sym_filter_t σ) (u : σ)
    (hacc : ∀ r sym v, (acc r sym v).1 ≠ 0 ∧ (acc r sym v).2 = (r, v)) :
    (SymbolReader_ProcessSymbols reader action none u).1 =
      (SymbolReader_ProcessSymbols reader action (some acc) u).1 ∧
    (SymbolReader_ProcessSymbols reader action none u).2.1 =
      (SymbolReader_ProcessSymbols reader action (some acc) u).2.1 ∧
    action_calls (SymbolReader_ProcessSymbols reader action none u).2.2 =
      action_calls (SymbolReader_ProcessSymbols reader action (some acc) u).2.2 ∧
    filter_calls (SymbolReader_ProcessSymbols reader action none u).2.2 =
      filter_calls (SymbolReader_ProcessSymbols reader action (some acc) u).2.2 := by
  cases reader with
  | none => exact ⟨rfl, rfl, rfl, rfl⟩
  | some r =>
    cases action with
    | none => exact ⟨rfl, rfl, rfl, rfl⟩
    | some a =>
      rw [SymbolReader_ProcessSymbols_eq, SymbolReader_ProcessSymbols_eq]
      obtain ⟨h1, h2, h3, h4⟩ := process_loop_accept_all a acc hacc 0
        { reader := r, user := u, calls := [] } { reader := r, user := u, calls := [] }
        rfl rfl rfl rfl
      exact ⟨by simpa [filter_of] using h1, h2, h3, h4⟩

/-- C6 (amended) at the reader of `elf_foo_bar`, the action that writes `sym_count = 3`
and the filter that returns `-7`. -/
theorem SymbolReader_ProcessSymbols_null_filter_witness :
    (SymbolReader_ProcessSymbols (some demo_reader) (some grow_action) none 0).1 =
      (SymbolReader_ProcessSymbols (some demo_reader) (some grow_action)
        (some accept_filter) 0).1 ∧
    (SymbolReader_ProcessSymbols (some demo_reader) (some grow_action) none 0).2.1 =
      (SymbolReader_ProcessSymbols (some demo_reader) (some grow_action)
        (some accept_filter) 0).2.1 ∧
    action_calls (SymbolReader_ProcessSymbols (some demo_reader) (some grow_action)
        none 0).2.2 =
      action_calls (SymbolReader_ProcessSymbols (some demo_reader) (some grow_action)
        (some accept_filter) 0).2.2 ∧
    filter_calls (SymbolReader_ProcessSymbols (some demo_reader) (some grow_action)
        none 0).2.2 =
      filter_calls (SymbolReader_ProcessSymbols (some demo_reader) (some grow_action)
        (some accept_filter) 0).2.2 :=
  SymbolReader_ProcessSymbols_null_filter (some demo_reader) (some grow_action) accept_filter 0
    (fun _ _ _ => ⟨show (-7 : Int) ≠ 0 by decide, rfl⟩)

/-- C6 as stated fails, for a filter that accepts every entry and writes something.  On
the reader of `elf_foo_bar` (entries at 4288 and 4312): with `shift_filter`, which
returns `1` and moves `reader->sym_table` one entry on, the counting action is called on
4312 and 4360, with no filter on 4288 and 4312; with `tick_filter`, which returns `1`
and counts its calls in the caller's state, the action that ends the traversal once the
count is two is called once, with no filter twice. -/
theorem SymbolReader_ProcessSymbols_null_filter_fails :
    (∀ r sym v, (shift_filter r sym v).1 ≠ 0) ∧
    (∀ r sym v, (tick_filter r sym v).1 ≠ 0) ∧
    action_calls (SymbolReader_ProcessSymbols (some demo_reader) (some count_action)
      none 0).2.2 = [(0, 4288), (1, 4312)] ∧
    action_calls (SymbolReader_ProcessSymbols (some demo_reader) (some count_action)
      (some shift_filter) 0).2.2 = [(0, 4312), (1, 4360)] ∧
    action_calls (SymbolReader_ProcessSymbols (some demo_reader) (some stop_at_two_action)
      none 0).2.2 = [(0, 4288), (1, 4312)] ∧
    action_calls (SymbolReader_ProcessSymbols (some demo_reader) (some stop_at_two_action)
      (some tick_filter) 0).2.2 = [(0, 4288)] := by
  refine ⟨fun _ _ _ => show (1 : Int) ≠ 0 by decide,
    fun _ _ _ => show (1 : Int) ≠ 0 by decide, ?_, ?_, ?_, ?_⟩
  · simp [SymbolReader_ProcessSymbols, process_loop, process_step, dummy_filter, count_action,
      demo_reader, SYM_SIZE, action_calls]
  · simp [SymbolReader_ProcessSymbols, process_loop, process_step, shift_filter, count_action,
      demo_reader, SYM_SIZE, action_calls]
  · simp [SymbolReader_ProcessSymbols, process_loop, process_step, dummy_filter,
      stop_at_two_action, demo_reader, SYM_SIZE, action_calls]
  · simp [SymbolReader_ProcessSymbols, process_loop, process_step, tick_filter,
      stop_at_two_action, demo_reader, SYM_SIZE, action_calls]

/-- C7 (amended): for every initialised reader, a traversal with a filter that returns
`0` on every entry calls the action zero times, whatever else the callbacks do; and a
traversal with a filter that returns a non-zero value on every entry calls the action
exactly `sym_count` times, once for each index `0 .. sym_count - 1` in this order,
provided neither callback writes `sym_count` of the reader. -/
theorem SymbolReader_ProcessSymbols_reject_accept {σ : Type} (reader0 : Option SymbolReader)
    (fpath : Option String) (s0 : Sys) (r : SymbolReader) (s : Sys)
    (hinit : SymbolReader_Init reader0 fpath s0 = (0, some r, s))
    (action : sym_action_t σ) (rej acc : sym_filter_t σ) (u : σ)
    (hrej : ∀ r1 sym v, (rej r1 sym v).1 = 0)
    (hacc : ∀ r1 sym v, (acc r1 sym v).1 ≠ 0) :
    action_calls (SymbolReader_ProcessSymbols (some r) (some action) (some rej) u).2.2 = [] ∧
    (action_keeps_count action → filter_keeps_count acc →
      (action_calls
        (SymbolReader_ProcessSymbols (some r) (some action) (some acc) u).2.2).length =
          r.sym_count ∧
      (action_calls
        (SymbolReader_ProcessSymbols (some r) (some action) (some acc) u).2.2).map Prod.fst =
          List.range r.sym_count) := by
  constructor
  · rw [SymbolReader_ProcessSymbols_eq]
    exact process_loop_reject action rej hrej 0 { reader := r, user := u, calls := [] }
  · intro ha hf
    have hr := SymbolReader_Init_count_lt reader0 fpath s0 r s hinit
    have h : (action_calls
        (SymbolReader_ProcessSymbols (some r) (some action) (some acc) u).2.2).map Prod.fst =
          List.range r.sym_count := by
      rw [SymbolReader_ProcessSymbols_eq]
      have h1 := (process_loop_indices action acc hf ha r.sym_count 0
        { reader := r, user := u, calls := [] } hr (by simp)).2 hacc
      simp only [filter_of]
      rw [h1, List.range_eq_range']
      simp [action_calls]
    refine ⟨?_, h⟩
    have h2 := congrArg List.length h
    simpa using h2

/-- C7 (amended) at the reader of `elf_foo_bar` and a counting action: no call with the
filter that returns `0`, two calls with the filter that returns `-7`. -/
theorem SymbolReader_ProcessSymbols_reject_accept_witness :
    action_calls (SymbolReader_ProcessSymbols (some demo_reader) (some count_action)
      (some reject_filter) 0).2.2 = [] ∧
    (action_calls (SymbolReader_ProcessSymbols (some demo_reader) (some count_action)
      (some accept_filter) 0).2.2).length = demo_reader.sym_count :=
  ⟨(SymbolReader_ProcessSymbols_reject_accept (some SymbolReader.zero) (some ELF_FILE_PATH)
      (demo_sys (regular elf_foo_bar)) demo_reader demo_state demo_init_eq count_action
      reject_filter accept_filter 0 (fun _ _ _ => rfl)
      (fun _ _ _ => show (-7 : Int) ≠ 0 by decide)).1,
   ((SymbolReader_ProcessSymbols_reject_accept (some SymbolReader.zero) (some ELF_FILE_PATH)
      (demo_sys (regular elf_foo_bar)) demo_reader demo_state demo_init_eq count_action
      reject_filter accept_filter 0 (fun _ _ _ => rfl)
      (fun _ _ _ => show (-7 : Int) ≠ 0 by decide)).2
        (fun _ _ _ => rfl) (fun _ _ _ => rfl)).1⟩

/-- C7 as stated fails: on the initialised reader of `elf_foo_bar` (two entries), with
the filter that returns `-7` on every entry and does nothing else, the action that
writes `reader->sym_count = 1` is called once, not `sym_count = 2` times. -/
theorem SymbolReader_ProcessSymbols_reject_accept_fails :
    SymbolReader_Init (some SymbolReader.zero) (some ELF_FILE_PATH)
      (demo_sys (regular elf_foo_bar)) = (0, some demo_reader, demo_state) ∧
    demo_reader.sym_count = 2 ∧
    (∀ r sym v, (accept_filter r sym v).1 ≠ 0 ∧ (accept_filter r sym v).2 = (r, v)) ∧
    (SymbolReader_ProcessSymbols (some demo_reader) (some shrink_action)
      (some accept_filter) 0).2.2 = [Call.filter 0 4288 (-7), Call.action 0 4288] ∧
    (action_calls (SymbolReader_ProcessSymbols (some demo_reader) (some shrink_action)
      (some accept_filter) 0).2.2).length ≠ demo_reader.sym_count := by
  have h : (SymbolReader_ProcessSymbols (some demo_reader) (some shrink_action)
      (some accept_filter) 0).2.2 = [Call.filter 0 4288 (-7), Call.action 0 4288] := by
    simp [SymbolReader_ProcessSymbols, process_loop, process_step, accept_filter,
      shrink_action, demo_reader, SYM_SIZE]
  refine ⟨demo_init_eq, rfl, fun _ _ _ => ⟨show (-7 : Int) ≠ 0 by decide, rfl⟩, h, ?_⟩
  rw [h]
  decide

/-- C10: after `SymbolReader_Destroy` on any reader every field of the struct is zero,
and a following `SymbolReader_ProcessSymbols` on it, with any action and filter (also
`NULL` ones), calls neither the filter nor the action and changes nothing. -/
theorem SymbolReader_Destroy_clears {σ : Type} (r : SymbolReader) (s : Sys)
    (action : Option (sym_action_t σ)) (filter : Option (sym_filter_t σ)) (u : σ) :
    ∃ z : SymbolReader, (SymbolReader_Destroy (some r) s).1 = some z ∧
      z.ehdr = 0 ∧ z.shdrs = 0 ∧ z.sym_sh = 0 ∧ z.sym_table = 0 ∧ z.sym_count = 0 ∧
      z.str_table = 0 ∧ z.fsize = 0 ∧ z.fd = 0 ∧
      SymbolReader_ProcessSymbols (SymbolReader_Destroy (some r) s).1 action filter u =
        (some z, u, []) := by
  refine ⟨SymbolReader.zero, rfl, rfl, rfl, rfl, rfl, rfl, rfl, rfl, rfl, ?_⟩
  cases action with
  | none => rfl
  | some a =>
    show SymbolReader_ProcessSymbols (some SymbolReader.zero) (some a) filter u = _
    rw [SymbolReader_ProcessSymbols_eq, process_loop_done]
    show ¬ 0 < 0 % 2 ^ 64
    simp

/-! ## The round trip on a synthetic file -/

/-- C8: `elf_foo_bar` is a file whose section-header table holds a single `SHT_SYMTAB`
header, of 48 bytes, linked to a string table with the bytes `"\0foo\0bar\0"`, and
whose two symbol entries have the name offsets 1 and 5.  On it `SymbolReader_Init`
returns `0` with `sym_count = 2`, a traversal whose action reads the string at
`str_table + st_name` yields exactly `["foo", "bar"]`, filter and action being called
on entry 0 and then on entry 1, and `print_value_and_str` prints the two lines. -/
theorem round_trip_foo_bar :
    (e_shnum (load8 demo_state) demo_reader.ehdr = 2 ∧
      (List.range 2).filter (fun i =>
        sh_type (load8 demo_state) (demo_reader.shdrs + 64 * i) = SHT_SYMTAB) = [0] ∧
      demo_reader.sym_sh = demo_reader.shdrs + 64 * 0 ∧
      sh_size (load8 demo_state) demo_reader.sym_sh = 48 ∧
      sh_link (load8 demo_state) demo_reader.sym_sh = 1 ∧
      (List.range 9).map (fun k =>
        load8 demo_state
          (demo_reader.ehdr + sh_offset (load8 demo_state) (demo_reader.shdrs + 64 * 1) + k)) =
        [0, 102, 111, 111, 0, 98, 97, 114, 0] ∧
      st_name (load8 demo_state) (demo_reader.sym_table + 24 * 0) = 1 ∧
      st_name (load8 demo_state) (demo_reader.sym_table + 24 * 1) = 5) ∧
    SymbolReader_Init (some SymbolReader.zero) (some ELF_FILE_PATH)
      (demo_sys (regular elf_foo_bar)) = (0, some demo_reader, demo_state) ∧
    demo_reader.sym_count = 2 ∧
    SymbolReader_ProcessSymbols (some demo_reader) (some (collect_name demo_state)) none [] =
      (some demo_reader, ["foo", "bar"],
        [Call.filter 0 4288 1, Call.action 0 4288, Call.filter 1 4312 1, Call.action 1 4312]) ∧
    (SymbolReader_ProcessSymbols (some demo_reader) (some (print_value_and_str demo_state))
      none "").2.1 = "0000000000401000 foo\n0000000000401020 bar\n" := by
  refine ⟨by decide, demo_init_eq, rfl, ?_, ?_⟩
  · rw [SymbolReader_ProcessSymbols_eq, process_loop_next _ _ _ _ (by decide),
      process_loop_next _ _ _ _ (by decide), process_loop_done _ _ _ _ (by decide)]
    decide
  · rw [SymbolReader_ProcessSymbols_eq, process_loop_next _ _ _ _ (by decide),
      process_loop_next _ _ _ _ (by decide), process_loop_done _ _ _ _ (by decide)]
    decide

/-! ## Resources on the failure paths of initialisation -/

theorem exists_free_fd (fds : List (Int × File)) :
    ∃ k, k ∈ List.range (fds.length + 1) ∧
      (!(fds.any (fun e => e.1 == Int.ofNat k))) = true := by
  by_contra hcon
  have hall : ∀ k, k < fds.length + 1 → ∃ e ∈ fds, e.1 = (k : Int) := by
    intro k hk
    by_contra hne
    apply hcon
    refine ⟨k, List.mem_range.2 hk, ?_⟩
    simp only [Bool.not_eq_true', List.any_eq_false, beq_iff_eq]
    intro e he heq
    exact hne ⟨e, he, heq⟩
  have hsub : (Finset.range (fds.length + 1)).image (fun k : Nat => (k : Int)) ⊆
      (fds.map Prod.fst).toFinset := by
    intro x hx
    obtain ⟨k, hk, rfl⟩ := Finset.mem_image.1 hx
    obtain ⟨e, he, heq⟩ := hall k (Finset.mem_range.1 hk)
    exact List.mem_toFinset.2 (List.mem_map.2 ⟨e, he, heq⟩)
  have hcard := Finset.card_le_card hsub
  rw [Finset.card_image_of_injective _ Nat.cast_injective, Finset.card_range] at hcard
  have hle := List.toFinset_card_le (fds.map Prod.fst)
  rw [List.length_map] at hle
  omega

/-- The descriptor `open` hands out is not in the table. -/
theorem lowest_free_fresh (fds : List (Int × File)) :
    ∀ e ∈ fds, e.1 ≠ lowest_free fds := by
  obtain ⟨k, hk, hp⟩ := exists_free_fd fds
  unfold lowest_free
  cases hfind : (List.range (fds.length + 1)).find?
      (fun n => !(fds.any (fun e => e.1 == Int.ofNat n))) with
  | none =>
    have := List.find?_eq_none.1 hfind k hk
    exact absurd hp this
  | some m =>
    have hm := List.find?_some hfind
    simp only [Bool.not_eq_true', List.any_eq_false, beq_iff_eq] at hm
    intro e he
    simpa using hm e he

theorem le_foldr_max (l : List Nat) : ∀ x ∈ l, x ≤ l.foldr max 0 := by
  induction l with
  | nil => intro x hx; cases hx
  | cons y ys ih =>
    intro x hx
    rcases List.mem_cons.1 hx with e | e
    · rw [e]; exact le_max_left _ _
    · exact le_trans (ih x e) (le_max_right _ _)

/-- The address `mmap` hands out lies above every live mapping. -/
theorem fresh_addr_gt (maps : List Mapping) : ∀ m ∈ maps, m.addr + m.len < fresh_addr maps := by
  intro m hm
  have h := le_foldr_max (maps.map (fun m => (m.addr + m.len) / 4096 + 1))
    ((m.addr + m.len) / 4096 + 1) (List.mem_map.2 ⟨m, hm, rfl⟩)
  unfold fresh_addr
  omega

theorem sys_close_fresh (s : Sys) (fds : List (Int × File)) (f : File)
    (h : s.fds = (lowest_free fds, f) :: fds) :
    (sys_close s (lowest_free fds)).fds = fds ∧
    (sys_close s (lowest_free fds)).maps = s.maps ∧
    (sys_close s (lowest_free fds)).log = s.log ++ [Syscall.sc_close (lowest_free fds) 0] := by
  have hany : s.fds.any (fun e => e.1 == lowest_free fds) = true := by
    rw [h]; simp
  unfold sys_close
  rw [if_pos hany]
  refine ⟨?_, rfl, rfl⟩
  show s.fds.filter (fun e => !(e.1 == lowest_free fds)) = fds
  rw [h, List.filter_cons]
  simp only [beq_self_eq_true, Bool.not_true, Bool.false_eq_true, if_false]
  rw [List.filter_eq_self]
  intro e he
  simpa using lowest_free_fresh fds e he

theorem sys_munmap_fresh (s : Sys) (maps : List Mapping) (len : Nat) (bytes : List Nat)
    (hlen : len ≠ 0)
    (h : s.maps = { addr := fresh_addr maps, len := len, bytes := bytes } :: maps) :
    (sys_munmap s (fresh_addr maps) len).maps = maps ∧
    (sys_munmap s (fresh_addr maps) len).fds = s.fds ∧
    (sys_munmap s (fresh_addr maps) len).log =
      s.log ++ [Syscall.sc_munmap (fresh_addr maps) len 0] := by
  unfold sys_munmap
  rw [if_neg hlen]
  refine ⟨?_, rfl, rfl⟩
  show s.maps.filter _ = maps
  rw [h, List.filter_cons]
  simp only [le_refl, decide_True, Bool.and_self, Bool.not_true, Bool.false_eq_true, if_false]
  rw [List.filter_eq_self]
  intro m hm
  have := fresh_addr_gt maps m hm
  simp only [Bool.not_eq_true', Bool.and_eq_false_imp, decide_eq_true_eq, decide_eq_false_iff_not]
  intro h1
  omega

theorem sys_open_cases (s : Sys) (path : String) :
    ((sys_open s path).1 = -1 ∧ (sys_open s path).2.fds = s.fds ∧
      (sys_open s path).2.maps = s.maps) ∨
    ((sys_open s path).1 = lowest_free s.fds ∧ (sys_open s path).2.maps = s.maps ∧
      ∃ f, (sys_open s path).2.fds = (lowest_free s.fds, f) :: s.fds) := by
  unfold sys_open
  split
  · rename_i f _
    exact Or.inr ⟨rfl, rfl, f, rfl⟩
  · exact Or.inl ⟨rfl, rfl, rfl⟩

theorem sys_fstat_frame (s : Sys) (fd : Int) :
    (sys_fstat s fd).2.fds = s.fds ∧ (sys_fstat s fd).2.maps = s.maps := by
  unfold sys_fstat
  split
  · split <;> exact ⟨rfl, rfl⟩
  · exact ⟨rfl, rfl⟩

theorem sys_mmap_cases (s : Sys) (len : Nat) (fd : Int) :
    (sys_mmap s len fd).2.fds = s.fds ∧
    (((sys_mmap s len fd).1 = MAP_FAILED ∧ (sys_mmap s len fd).2.maps = s.maps) ∨
     ((sys_mmap s len fd).1 = fresh_addr s.maps ∧ len ≠ 0 ∧
      ∃ bytes, (sys_mmap s len fd).2.maps =
        { addr := fresh_addr s.maps, len := len, bytes := bytes } :: s.maps)) := by
  unfold sys_mmap
  split
  · split
    · exact ⟨rfl, Or.inl ⟨rfl, rfl⟩⟩
    · rename_i f _ hn
      exact ⟨rfl, Or.inr ⟨rfl, fun h0 => hn (Or.inl h0), f.bytes, rfl⟩⟩
  · exact ⟨rfl, Or.inl ⟨rfl, rfl⟩⟩

/-- What `map_elf_header` leaves: the descriptor table as it was, and either the
result `-1` and the mappings as they were, or the result `0` and one new mapping, at
the recorded address and of the recorded, non-zero size. -/
theorem map_elf_header_cases (r : SymbolReader) (fd : Int) (s : Sys) :
    (map_elf_header r fd s).2.2.fds = s.fds ∧
    (((map_elf_header r fd s).1 = -1 ∧ (map_elf_header r fd s).2.2.maps = s.maps) ∨
     ((map_elf_header r fd s).1 = 0 ∧ (map_elf_header r fd s).2.1.ehdr = fresh_addr s.maps ∧
      (map_elf_header r fd s).2.1.fsize ≠ 0 ∧
      ∃ bytes, (map_elf_header r fd s).2.2.maps =
        { addr := (map_elf_header r fd s).2.1.ehdr, len := (map_elf_header r fd s).2.1.fsize,
          bytes := bytes } :: s.maps)) := by
  have hs := sys_fstat_frame s fd
  unfold map_elf_header
  dsimp only
  split
  · exact ⟨hs.1, Or.inl ⟨rfl, hs.2⟩⟩
  · rename_i st_size _
    dsimp only
    obtain ⟨hfd, hm⟩ := sys_mmap_cases (sys_fstat s fd).2 (st_size % 2 ^ 64) fd
    refine ⟨hfd.trans hs.1, ?_⟩
    rcases hm with ⟨h1, h2⟩ | ⟨h1, h2, bytes, h3⟩
    · left
      exact ⟨by rw [if_pos h1], h2.trans hs.2⟩
    · right
      have hne : (sys_mmap (sys_fstat s fd).2 (st_size % 2 ^ 64) fd).1 ≠ MAP_FAILED := by
        rw [h1]; exact fresh_addr_ne_failed _
      refine ⟨by rw [if_neg hne], by rw [h1, hs.2], h2, bytes, ?_⟩
      rw [h3, h1, hs.2]

theorem parse_symbol_header_frame (r : SymbolReader) (s : Sys) :
    (parse_symbol_header r s).2.ehdr = r.ehdr ∧ (parse_symbol_header r s).2.fsize = r.fsize ∧
    (parse_symbol_header r s).2.fd = r.fd := by
  unfold parse_symbol_header
  dsimp only
  split <;> exact ⟨rfl, rfl, rfl⟩

theorem SymbolReader_Init_unfold (r : SymbolReader) (path : String) (s : Sys) :
    SymbolReader_Init (some r) (some path) s =
      if (sys_open s path).1 = -1 then (-1, some r, (sys_open s path).2)
      else if (map_elf_header r (sys_open s path).1 (sys_open s path).2).1 = -1 then
        (-1, some (map_elf_header r (sys_open s path).1 (sys_open s path).2).2.1,
          sys_close (map_elf_header r (sys_open s path).1 (sys_open s path).2).2.2
            (sys_open s path).1)
      else if (parse_symbol_header
          (map_elf_header r (sys_open s path).1 (sys_open s path).2).2.1
          (map_elf_header r (sys_open s path).1 (sys_open s path).2).2.2).1 = -1 then
        (-1, some (parse_symbol_header
            (map_elf_header r (sys_open s path).1 (sys_open s path).2).2.1
            (map_elf_header r (sys_open s path).1 (sys_open s path).2).2.2).2,
          sys_close (sys_munmap (map_elf_header r (sys_open s path).1 (sys_open s path).2).2.2
            (parse_symbol_header
              (map_elf_header r (sys_open s path).1 (sys_open s path).2).2.1
              (map_elf_header r (sys_open s path).1 (sys_open s path).2).2.2).2.ehdr
            (parse_symbol_header
              (map_elf_header r (sys_open s path).1 (sys_open s path).2).2.1
              (map_elf_header r (sys_open s path).1 (sys_open s path).2).2.2).2.fsize)
            (sys_open s path).1)
      else
        (0, some { (parse_symbol_header
            (map_elf_header r (sys_open s path).1 (sys_open s path).2).2.1
            (map_elf_header r (sys_open s path).1 (sys_open s path).2).2.2).2 with
          sym_table := SYMBOL_TABLE
            (load8 (map_elf_header r (sys_open s path).1 (sys_open s path).2).2.2)
            (parse_symbol_header
              (map_elf_header r (sys_open s path).1 (sys_open s path).2).2.1
              (map_elf_header r (sys_open s path).1 (sys_open s path).2).2.2).2.ehdr
            (parse_symbol_header
              (map_elf_header r (sys_open s path).1 (sys_open s path).2).2.1
              (map_elf_header r (sys_open s path).1 (sys_open s path).2).2.2).2.sym_sh,
          str_table := STRING_TABLE
            (load8 (map_elf_header r (sys_open s path).1 (sys_open s path).2).2.2)
            (parse_symbol_header
              (map_elf_header r (sys_open s path).1 (sys_open s path).2).2.1
              (map_elf_header r (sys_open s path).1 (sys_open s path).2).2.2).2.ehdr
            (parse_symbol_header
              (map_elf_header r (sys_open s path).1 (sys_open s path).2).2.1
              (map_elf_header r (sys_open s path).1 (sys_open s path).2).2.2).2.shdrs
            (parse_symbol_header
              (map_elf_header r (sys_open s path).1 (sys_open s path).2).2.1
              (map_elf_header r (sys_open s path).1 (sys_open s path).2).2.2).2.sym_sh },
          (map_elf_header r (sys_open s path).1 (sys_open s path).2).2.2) := rfl

/-- The paths of `SymbolReader_Init` after a successful `open`: what is left when
`map_elf_header` fails and when `parse_symbol_header` fails. -/
theorem SymbolReader_Init_unwind (r : SymbolReader) (path : String) (s : Sys)
    (hopen : (sys_open s path).1 ≠ -1)
    (h : (SymbolReader_Init (some r) (some path) s).1 = -1) :
    (SymbolReader_Init (some r) (some path) s).2.2.fds = s.fds ∧
    (SymbolReader_Init (some r) (some path) s).2.2.maps = s.maps ∧
    ((map_elf_header r (sys_open s path).1 (sys_open s path).2).1 = -1 →
      (SymbolReader_Init (some r) (some path) s).2.2.log =
        (map_elf_header r (sys_open s path).1 (sys_open s path).2).2.2.log ++
          [Syscall.sc_close (sys_open s path).1 0]) ∧
    ((map_elf_header r (sys_open s path).1 (sys_open s path).2).1 ≠ -1 →
      (∃ bytes, (map_elf_header r (sys_open s path).1 (sys_open s path).2).2.2.maps =
        { addr := (map_elf_header r (sys_open s path).1 (sys_open s path).2).2.1.ehdr,
          len := (map_elf_header r (sys_open s path).1 (sys_open s path).2).2.1.fsize,
          bytes := bytes } :: s.maps) ∧
      (SymbolReader_Init (some r) (some path) s).2.2.log =
        (map_elf_header r (sys_open s path).1 (sys_open s path).2).2.2.log ++
          [Syscall.sc_munmap
            (map_elf_header r (sys_open s path).1 (sys_open s path).2).2.1.ehdr
            (map_elf_header r (sys_open s path).1 (sys_open s path).2).2.1.fsize 0,
           Syscall.sc_close (sys_open s path).1 0]) := by
  rcases sys_open_cases s path with ⟨h1, _⟩ | ⟨hfd, homaps, f, hofds⟩
  · exact absurd h1 hopen
  · obtain ⟨hmfds, hm⟩ := map_elf_header_cases r (sys_open s path).1 (sys_open s path).2
    rw [SymbolReader_Init_unfold, if_neg hopen] at h ⊢
    rcases hm with ⟨hm1, hmmaps⟩ | ⟨hm0, hehdr, hsize, bytes, hmmaps⟩
    · rw [if_pos hm1]
      dsimp only
      obtain ⟨c1, c2, c3⟩ := sys_close_fresh
        (map_elf_header r (sys_open s path).1 (sys_open s path).2).2.2 s.fds f
        (by rw [hmfds, hofds])
      rw [← hfd] at c1 c2 c3
      refine ⟨c1, by rw [c2, hmmaps, homaps], fun _ => c3, fun hne => absurd hm1 hne⟩
    · have hne : (map_elf_header r (sys_open s path).1 (sys_open s path).2).1 ≠ -1 := by
        rw [hm0]; decide
      rw [if_neg hne] at h ⊢
      obtain ⟨pe, pf, _⟩ := parse_symbol_header_frame
        (map_elf_header r (sys_open s path).1 (sys_open s path).2).2.1
        (map_elf_header r (sys_open s path).1 (sys_open s path).2).2.2
      by_cases hp : (parse_symbol_header
          (map_elf_header r (sys_open s path).1 (sys_open s path).2).2.1
          (map_elf_header r (sys_open s path).1 (sys_open s path).2).2.2).1 = -1
      · rw [if_pos hp]
        dsimp only
        rw [pe, pf]
        rw [homaps] at hehdr hmmaps
        obtain ⟨u1, u2, u3⟩ := sys_munmap_fresh
          (map_elf_header r (sys_open s path).1 (sys_open s path).2).2.2 s.maps
          (map_elf_header r (sys_open s path).1 (sys_open s path).2).2.1.fsize bytes hsize
          (by rw [hmmaps, hehdr])
        rw [← hehdr] at u1 u2 u3
        obtain ⟨c1, c2, c3⟩ := sys_close_fresh
          (sys_munmap (map_elf_header r (sys_open s path).1 (sys_open s path).2).2.2
            (map_elf_header r (sys_open s path).1 (sys_open s path).2).2.1.ehdr
            (map_elf_header r (sys_open s path).1 (sys_open s path).2).2.1.fsize) s.fds f
          (by rw [u2, hmfds, hofds])
        rw [← hfd] at c1 c2 c3
        refine ⟨c1, by rw [c2, u1], fun he => absurd he hne, fun _ => ⟨⟨bytes, hmmaps⟩, ?_⟩⟩
        rw [c3, u3]
        simp
      · rw [if_neg hp] at h
        exact absurd (show (0 : Int) = -1 from h) (by decide)

theorem lowest_free_ne (fds : List (Int × File)) : lowest_free fds ≠ -1 := by
  unfold lowest_free
  generalize ((List.range (fds.length + 1)).find?
    (fun n => !(fds.any (fun e => e.1 == Int.ofNat n)))).getD fds.length = n
  intro h
  have h2 : (n : Int) = -1 := h
  omega

/-- C9: every run of `SymbolReader_Init` that returns `-1` leaves the descriptor table
and the live mappings exactly as it found them.  When `open` succeeded and
`map_elf_header` failed (stat or mapping), the run ends with a successful `close` of the
opened descriptor; when the mapping was made and no symbol-table section was found, it
ends with a successful `munmap` of the mapping at the recorded address with the recorded
file size, followed by a successful `close` of the opened descriptor. -/
theorem SymbolReader_Init_failure_releases (reader : Option SymbolReader)
    (fpath : Option String) (s : Sys) (h : (SymbolReader_Init reader fpath s).1 = -1) :
    (SymbolReader_Init reader fpath s).2.2.fds = s.fds ∧
    (SymbolReader_Init reader fpath s).2.2.maps = s.maps ∧
    ∀ r path, reader = some r → fpath = some path → (sys_open s path).1 ≠ -1 →
      ((map_elf_header r (sys_open s path).1 (sys_open s path).2).1 = -1 →
        (SymbolReader_Init reader fpath s).2.2.log =
          (map_elf_header r (sys_open s path).1 (sys_open s path).2).2.2.log ++
            [Syscall.sc_close (sys_open s path).1 0]) ∧
      ((map_elf_header r (sys_open s path).1 (sys_open s path).2).1 ≠ -1 →
        (∃ bytes, (map_elf_header r (sys_open s path).1 (sys_open s path).2).2.2.maps =
          { addr := (map_elf_header r (sys_open s path).1 (sys_open s path).2).2.1.ehdr,
            len := (map_elf_header r (sys_open s path).1 (sys_open s path).2).2.1.fsize,
            bytes := bytes } :: s.maps) ∧
        (SymbolReader_Init reader fpath s).2.2.log =
          (map_elf_header r (sys_open s path).1 (sys_open s path).2).2.2.log ++
            [Syscall.sc_munmap
              (map_elf_header r (sys_open s path).1 (sys_open s path).2).2.1.ehdr
              (map_elf_header r (sys_open s path).1 (sys_open s path).2).2.1.fsize 0,
             Syscall.sc_close (sys_open s path).1 0]) := by
  cases reader with
  | none =>
    refine ⟨by cases fpath <;> rfl, by cases fpath <;> rfl, ?_⟩
    intro r path hr
    cases hr
  | some r0 =>
    cases fpath with
    | none =>
      refine ⟨rfl, rfl, ?_⟩
      intro r path _ hp
      cases hp
    | some path0 =>
      by_cases hopen : (sys_open s path0).1 = -1
      · have hI : SymbolReader_Init (some r0) (some path0) s =
            (-1, some r0, (sys_open s path0).2) := by
          rw [SymbolReader_Init_unfold, if_pos hopen]
        rw [hI]
        rcases sys_open_cases s path0 with ⟨_, h2, h3⟩ | ⟨hfd, _, _⟩
        · refine ⟨h2, h3, ?_⟩
          intro r path hr hp hne
          cases hr
          cases hp
          exact absurd hopen hne
        · exact absurd (hfd ▸ hopen) (lowest_free_ne s.fds)
      · obtain ⟨h1, h2, h3, h4⟩ := SymbolReader_Init_unwind r0 path0 s hopen h
        refine ⟨h1, h2, ?_⟩
        intro r path hr hp _
        cases hr
        cases hp
        exact ⟨h3, h4⟩

/-- C9 at the file without a symbol-table section: initialisation fails, and the three
standard descriptors are the only ones open and nothing is mapped afterwards. -/
theorem SymbolReader_Init_failure_releases_witness :
    (SymbolReader_Init (some SymbolReader.zero) (some ELF_FILE_PATH)
      (demo_sys (regular elf_no_symtab))).2.2.fds = (demo_sys (regular elf_no_symtab)).fds ∧
    (SymbolReader_Init (some SymbolReader.zero) (some ELF_FILE_PATH)
      (demo_sys (regular elf_no_symtab))).2.2.maps = (demo_sys (regular elf_no_symtab)).maps :=
  ⟨(SymbolReader_Init_failure_releases (some SymbolReader.zero) (some ELF_FILE_PATH)
      (demo_sys (regular elf_no_symtab)) (by decide)).1,
   (SymbolReader_Init_failure_releases (some SymbolReader.zero) (some ELF_FILE_PATH)
      (demo_sys (regular elf_no_symtab)) (by decide)).2.1⟩

/-! ## Absent arguments -/

/-- C12: for a `NULL` reader or a `NULL` action, with any filter (also a `NULL` one),
`SymbolReader_ProcessSymbols` returns at once: no filter call and no action call is
made, the reader struct (when there is one) keeps every field, and the caller's state is
as before. -/
theorem SymbolReader_ProcessSymbols_absent {σ : Type} (reader : Option SymbolReader)
    (action : Option (sym_action_t σ)) (filter : Option (sym_filter_t σ)) (u : σ)
    (h : reader = none ∨ action = none) :
    SymbolReader_ProcessSymbols reader action filter u = (reader, u, []) := by
  rcases h with h | h
  · subst h
    rfl
  · subst h
    cases reader <;> rfl

/-- C12 at the reader of `elf_foo_bar` with no action and an accepting filter. -/
theorem SymbolReader_ProcessSymbols_absent_witness :
    SymbolReader_ProcessSymbols (some demo_reader) (none : Option (sym_action_t Nat))
      (some accept_filter) 0 = (some demo_reader, 0, []) :=
  SymbolReader_ProcessSymbols_absent (some demo_reader) none (some accept_filter) 0
    (Or.inr rfl)

/-- C13: with a `NULL` reader or a `NULL` path `SymbolReader_Init` returns `-1`, makes
no system call (the process state, its record of calls included, is as before: nothing
is opened or mapped) and writes no field of the reader struct. -/
theorem SymbolReader_Init_absent (reader : Option SymbolReader) (fpath : Option String)
    (s : Sys) (h : reader = none ∨ fpath = none) :
    SymbolReader_Init reader fpath s = (-1, reader, s) := by
  rcases h with h | h
  · subst h
    rfl
  · subst h
    cases reader <;> rfl

/-- C13 at a reader struct with no path, in `demo_sys`. -/
theorem SymbolReader_Init_absent_witness :
    SymbolReader_Init (some demo_reader) none (demo_sys (regular elf_foo_bar)) =
      (-1, some demo_reader, demo_sys (regular elf_foo_bar)) :=
  SymbolReader_Init_absent (some demo_reader) none (demo_sys (regular elf_foo_bar))
    (Or.inr rfl)

/-! ## A successful initialisation -/

theorem map_elf_header_fd (r : SymbolReader) (fd : Int) (s : Sys) :
    (map_elf_header r fd s).2.1.fd = fd := by
  unfold map_elf_header
  dsimp only
  split <;> rfl

theorem parse_symbol_header_shdrs (r : SymbolReader) (s : Sys) :
    (parse_symbol_header r s).2.shdrs = SECTION_HEADERS (load8 s) r.ehdr := by
  unfold parse_symbol_header
  dsimp only
  split <;> rfl

theorem parse_symbol_header_ok_count (r : SymbolReader) (s : Sys)
    (h : (parse_symbol_header r s).1 ≠ -1) :
    (parse_symbol_header r s).2.sym_count =
      sh_size (load8 s) (parse_symbol_header r s).2.sym_sh / 24 := by
  unfold parse_symbol_header at h ⊢
  dsimp only at h ⊢
  split
  · rename_i h1
    rw [if_pos h1] at h
    exact absurd rfl h
  · rfl

/-- What a run of `SymbolReader_Init` that returns `0` went through: both arguments
were there, `open` and `map_elf_header` succeeded, the process state is the one the
mapping left, `parse_symbol_header` succeeded and the two tables were linked. -/
theorem SymbolReader_Init_ok (reader : Option SymbolReader) (fpath : Option String)
    (s : Sys) (r : SymbolReader) (s1 : Sys)
    (h : SymbolReader_Init reader fpath s = (0, some r, s1)) :
    ∃ r0 path, reader = some r0 ∧ fpath = some path ∧ (sys_open s path).1 ≠ -1 ∧
      (map_elf_header r0 (sys_open s path).1 (sys_open s path).2).1 = 0 ∧
      s1 = (map_elf_header r0 (sys_open s path).1 (sys_open s path).2).2.2 ∧
      (parse_symbol_header (map_elf_header r0 (sys_open s path).1 (sys_open s path).2).2.1
        s1).1 ≠ -1 ∧
      r = { (parse_symbol_header
              (map_elf_header r0 (sys_open s path).1 (sys_open s path).2).2.1 s1).2 with
            sym_table := SYMBOL_TABLE (load8 s1)
              (parse_symbol_header
                (map_elf_header r0 (sys_open s path).1 (sys_open s path).2).2.1 s1).2.ehdr
              (parse_symbol_header
                (map_elf_header r0 (sys_open s path).1 (sys_open s path).2).2.1 s1).2.sym_sh,
            str_table := STRING_TABLE (load8 s1)
              (parse_symbol_header
                (map_elf_header r0 (sys_open s path).1 (sys_open s path).2).2.1 s1).2.ehdr
              (parse_symbol_header
                (map_elf_header r0 (sys_open s path).1 (sys_open s path).2).2.1 s1).2.shdrs
              (parse_symbol_header
                (map_elf_header r0 (sys_open s path).1 (sys_open s path).2).2.1 s1).2.sym_sh } := by
  cases reader with
  | none =>
    have h1 : (-1 : Int) = 0 := by
      have := congrArg Prod.fst h
      cases fpath <;> exact this
    exact absurd h1 (by decide)
  | some r0 =>
    cases fpath with
    | none => exact absurd (show (-1 : Int) = 0 from congrArg Prod.fst h) (by decide)
    | some path =>
      rw [SymbolReader_Init_unfold] at h
      by_cases hopen : (sys_open s path).1 = -1
      · rw [if_pos hopen] at h
        exact absurd (show (-1 : Int) = 0 from congrArg Prod.fst h) (by decide)
      · rw [if_neg hopen] at h
        by_cases hm : (map_elf_header r0 (sys_open s path).1 (sys_open s path).2).1 = -1
        · rw [if_pos hm] at h
          exact absurd (show (-1 : Int) = 0 from congrArg Prod.fst h) (by decide)
        · rw [if_neg hm] at h
          by_cases hp : (parse_symbol_header
              (map_elf_header r0 (sys_open s path).1 (sys_open s path).2).2.1
              (map_elf_header r0 (sys_open s path).1 (sys_open s path).2).2.2).1 = -1
          · rw [if_pos hp] at h
            exact absurd (show (-1 : Int) = 0 from congrArg Prod.fst h) (by decide)
          · rw [if_neg hp] at h
            have hs : (map_elf_header r0 (sys_open s path).1 (sys_open s path).2).2.2 = s1 :=
              congrArg (fun x => x.2.2) h
            have hr := congrArg (fun x => x.2.1) h
            dsimp only at hr
            rw [Option.some.injEq] at hr
            have hm0 : (map_elf_header r0 (sys_open s path).1 (sys_open s path).2).1 = 0 := by
              rcases (map_elf_header_cases r0 (sys_open s path).1 (sys_open s path).2).2 with
                ⟨e, _⟩ | ⟨e, _⟩
              · exact absurd e hm
              · exact e
            subst hs
            exact ⟨r0, path, rfl, rfl, hopen, hm0, rfl, hp, hr.symm⟩

/-! ## The traversal has no effect of its own -/

/-- With callbacks that change nothing, the loop leaves the reader struct and the
caller's state as they are. -/
theorem process_loop_pure {σ : Type} (a : sym_action_t σ) (f : sym_filter_t σ)
    (ha : ∀ r sym v, a r sym v = (r, v)) (hf : ∀ r sym v, (f r sym v).2 = (r, v))
    (i : Nat) (st : Run σ) :
    (process_loop a f i st).reader = st.reader ∧ (process_loop a f i st).user = st.user := by
  induction i, st using process_loop.induct a f with
  | case1 i st h ih =>
    rw [process_loop_unfold, if_pos h]
    have e : (process_step a f i st).reader = st.reader ∧
        (process_step a f i st).user = st.user := by
      unfold process_step
      dsimp only
      split
      · rw [ha, hf]
        exact ⟨rfl, rfl⟩
      · rw [hf]
        exact ⟨rfl, rfl⟩
    exact ⟨ih.1.trans e.1, ih.2.trans e.2⟩
  | case2 i st h =>
    rw [process_loop_unfold, if_neg h]
    exact ⟨rfl, rfl⟩

/-- C15: the traversal has no effect of its own.  The callbacks are given the reader
struct, the process state (descriptors, mappings and the bytes they show) and a caller
state; for every filter and action that leave all three as they are, whatever the
filter returns, the reader struct, the process state and the caller state after
`SymbolReader_ProcessSymbols` are those before the call, and so is every byte a load
returns. -/
theorem SymbolReader_ProcessSymbols_pure {τ : Type} (reader : Option SymbolReader)
    (action : Option (sym_action_t (Sys × τ))) (filter : Option (sym_filter_t (Sys × τ)))
    (s : Sys) (u : τ)
    (ha : ∀ a, action = some a → ∀ r sym v, a r sym v = (r, v))
    (hf : ∀ f, filter = some f → ∀ r sym v, (f r sym v).2 = (r, v)) :
    (SymbolReader_ProcessSymbols reader action filter (s, u)).1 = reader ∧
    (SymbolReader_ProcessSymbols reader action filter (s, u)).2.1 = (s, u) ∧
    ∀ addr, load8 (SymbolReader_ProcessSymbols reader action filter (s, u)).2.1.1 addr =
      load8 s addr := by
  have key : (SymbolReader_ProcessSymbols reader action filter (s, u)).1 = reader ∧
      (SymbolReader_ProcessSymbols reader action filter (s, u)).2.1 = (s, u) := by
    cases reader with
    | none => exact ⟨rfl, rfl⟩
    | some r =>
      cases action with
      | none => exact ⟨rfl, rfl⟩
      | some a =>
        have hf1 : ∀ r sym v, ((filter_of filter) r sym v).2 = (r, v) := by
          cases filter with
          | none => intro r sym v; rfl
          | some f => exact hf f rfl
        rw [SymbolReader_ProcessSymbols_eq]
        obtain ⟨h1, h2⟩ := process_loop_pure a (filter_of filter) (ha a rfl) hf1 0
          { reader := r, user := (s, u), calls := [] }
        exact ⟨by rw [h1], h2⟩
  refine ⟨key.1, key.2, ?_⟩
  intro addr
  rw [key.2]

/-- C15 at the reader of `elf_foo_bar`, an action that does nothing and a filter that
reads the name offset of the entry and accepts the odd ones. -/
theorem SymbolReader_ProcessSymbols_pure_witness :
    (SymbolReader_ProcessSymbols (some demo_reader) (some idle_action)
      (some odd_name_filter) (demo_state, 0)).1 = some demo_reader ∧
    (SymbolReader_ProcessSymbols (some demo_reader) (some idle_action)
      (some odd_name_filter) (demo_state, 0)).2.1 = (demo_state, 0) ∧
    ∀ addr, load8 (SymbolReader_ProcessSymbols (some demo_reader) (some idle_action)
      (some odd_name_filter) (demo_state, 0)).2.1.1 addr = load8 demo_state addr :=
  SymbolReader_ProcessSymbols_pure (some demo_reader) (some idle_action)
    (some odd_name_filter) demo_state 0
    (fun _ h => by cases h; intro _ _ _; rfl) (fun _ h => by cases h; intro _ _ _; rfl)

/-! ## The result of a failed initialisation -/

/-- C17 as stated fails: in `demo_sys`, where the descriptors 0, 1 and 2 are open,
the reader of `elf_foo_bar` is initialised and destroyed twice.  The first
`SymbolReader_Destroy` unmaps the mapping and closes descriptor 3.  The second one acts
on the all-zero struct: `munmap(0, 0)` fails and unmaps nothing, the struct stays
all-zero, and `close(0)` succeeds and closes descriptor 0 of the process. -/
theorem SymbolReader_Destroy_twice_closes_stdin :
    SymbolReader_Init (some SymbolReader.zero) (some ELF_FILE_PATH)
      (demo_sys (regular elf_foo_bar)) = (0, some demo_reader, demo_state) ∧
    demo_state.fds.map Prod.fst = [3, 0, 1, 2] ∧
    (SymbolReader_Destroy (some demo_reader) demo_state).1 = some SymbolReader.zero ∧
    (SymbolReader_Destroy (some demo_reader) demo_state).2.fds.map Prod.fst = [0, 1, 2] ∧
    (SymbolReader_Destroy (some demo_reader) demo_state).2.maps.map (fun m => m.addr) = [] ∧
    (SymbolReader_Destroy (SymbolReader_Destroy (some demo_reader) demo_state).1
      (SymbolReader_Destroy (some demo_reader) demo_state).2).1 = some SymbolReader.zero ∧
    (SymbolReader_Destroy (SymbolReader_Destroy (some demo_reader) demo_state).1
      (SymbolReader_Destroy (some demo_reader) demo_state).2).2.fds.map Prod.fst = [1, 2] ∧
    (SymbolReader_Destroy (SymbolReader_Destroy (some demo_reader) demo_state).1
      (SymbolReader_Destroy (some demo_reader) demo_state).2).2.log =
      (SymbolReader_Destroy (some demo_reader) demo_state).2.log ++
        [Syscall.sc_munmap 0 0 (-1), Syscall.sc_close 0 0] := by
  refine ⟨demo_init_eq, by decide, by decide, by decide, by decide, by decide, by decide,
    by decide⟩

theorem sys_open_log (s : Sys) (path : String) :
    (sys_open s path).2.log = s.log ++ [Syscall.sc_open path (sys_open s path).1] := by
  unfold sys_open
  split <;> rfl

theorem sys_fstat_log (s : Sys) (fd : Int) (n : Nat) (h : (sys_fstat s fd).1 = some n) :
    (sys_fstat s fd).2.log = s.log ++ [Syscall.sc_fstat fd 0] := by
  unfold sys_fstat at h ⊢
  cases hf : fd_file s fd with
  | none =>
    rw [hf] at h
    cases h
  | some f =>
    rw [hf] at h
    dsimp only at h ⊢
    by_cases hs : f.stat_fails = true
    · rw [if_pos hs] at h
      cases h
    · rw [if_neg hs]

theorem sys_mmap_log (s : Sys) (len : Nat) (fd : Int) :
    (sys_mmap s len fd).2.log = s.log ++ [Syscall.sc_mmap len fd (sys_mmap s len fd).1] := by
  unfold sys_mmap
  split
  · split <;> rfl
  · rfl

theorem map_elf_header_log (r : SymbolReader) (fd : Int) (s : Sys)
    (h : (map_elf_header r fd s).1 = 0) :
    (map_elf_header r fd s).2.2.log =
      s.log ++ [Syscall.sc_fstat fd 0,
        Syscall.sc_mmap (map_elf_header r fd s).2.1.fsize fd (map_elf_header r fd s).2.1.ehdr] := by
  unfold map_elf_header at h ⊢
  dsimp only at h ⊢
  split
  · rename_i hn
    rw [hn] at h
    exact absurd (show (-1 : Int) = 0 from h) (by decide)
  · rename_i size hs
    dsimp only
    rw [sys_mmap_log, sys_fstat_log s fd size hs]
    simp

/-- C11 (amended): for every run of `SymbolReader_Init` that succeeded, the run acquired
one descriptor and one mapping and released nothing, and a following
`SymbolReader_Destroy` releases each of the two exactly once, with one successful
`munmap` of the mapping at its recorded size and one successful `close` of the
descriptor, and releases nothing else: the descriptor table and the mappings are those
from before the initialisation, and the struct is all-zero. -/
theorem SymbolReader_Destroy_releases_once (reader : Option SymbolReader)
    (fpath : Option String) (s : Sys) (r : SymbolReader) (s1 : Sys)
    (h : SymbolReader_Init reader fpath s = (0, some r, s1)) :
    (∃ f bytes path, s1.fds = (r.fd, f) :: s.fds ∧
      s1.maps = { addr := r.ehdr, len := r.fsize, bytes := bytes } :: s.maps ∧
      s1.log = s.log ++ [Syscall.sc_open path r.fd, Syscall.sc_fstat r.fd 0,
        Syscall.sc_mmap r.fsize r.fd r.ehdr]) ∧
    (SymbolReader_Destroy (some r) s1).1 = some SymbolReader.zero ∧
    (SymbolReader_Destroy (some r) s1).2.fds = s.fds ∧
    (SymbolReader_Destroy (some r) s1).2.maps = s.maps ∧
    (SymbolReader_Destroy (some r) s1).2.log =
      s1.log ++ [Syscall.sc_munmap r.ehdr r.fsize 0, Syscall.sc_close r.fd 0] := by
  obtain ⟨r0, path, _, _, hopen, hm0, hs1, _, hr⟩ := SymbolReader_Init_ok reader fpath s r s1 h
  rcases sys_open_cases s path with ⟨e, _⟩ | ⟨hfd, homaps, f, hofds⟩
  · exact absurd e hopen
  · obtain ⟨hmfds, hm⟩ := map_elf_header_cases r0 (sys_open s path).1 (sys_open s path).2
    have hlog := map_elf_header_log r0 (sys_open s path).1 (sys_open s path).2 hm0
    have hmfd := map_elf_header_fd r0 (sys_open s path).1 (sys_open s path).2
    rw [sys_open_log] at hlog
    rw [← hs1] at hmfds hm hlog
    generalize (map_elf_header r0 (sys_open s path).1 (sys_open s path).2).2.1 = rm
      at hr hm hlog hmfd
    obtain ⟨pe, pf, pd⟩ := parse_symbol_header_frame rm s1
    generalize parse_symbol_header rm s1 = p at hr pe pf pd
    have e1 : r.ehdr = rm.ehdr := by rw [hr]; exact pe
    have e2 : r.fsize = rm.fsize := by rw [hr]; exact pf
    have e3 : r.fd = lowest_free s.fds := by rw [hr]; exact (pd.trans hmfd).trans hfd
    rcases hm with ⟨hm1, _⟩ | ⟨_, hehdr, hsize, bytes, hmmaps⟩
    · rw [hm0] at hm1
      exact absurd hm1 (by decide)
    · rw [homaps] at hehdr hmmaps
      rw [hofds] at hmfds
      rw [hfd] at hlog
      rw [← e1, ← e2] at hmmaps hlog
      rw [← e1] at hehdr
      rw [← e2] at hsize
      rw [← e3] at hlog hmfds
      have hmm : s1.maps = { addr := fresh_addr s.maps, len := r.fsize, bytes := bytes } ::
          s.maps := by rw [hmmaps, hehdr]
      obtain ⟨u1, u2, u3⟩ := sys_munmap_fresh s1 s.maps r.fsize bytes hsize hmm
      rw [← hehdr] at u1 u2 u3
      obtain ⟨c1, c2, c3⟩ := sys_close_fresh (sys_munmap s1 r.ehdr r.fsize) s.fds f
        (by rw [u2, hmfds, e3])
      rw [← e3] at c1 c2 c3
      refine ⟨⟨f, bytes, path, hmfds, hmmaps, by rw [hlog]; simp⟩, rfl, c1, ?_, ?_⟩
      · show (sys_close (sys_munmap s1 r.ehdr r.fsize) r.fd).maps = s.maps
        rw [c2, u1]
      · show (sys_close (sys_munmap s1 r.ehdr r.fsize) r.fd).log = _
        rw [c3, u3]
        simp

/-- C11 (amended) at `elf_foo_bar` in `demo_sys`: after init and destroy the descriptors
0, 1 and 2 are the open ones again and nothing is mapped. -/
theorem SymbolReader_Destroy_releases_once_witness :
    (SymbolReader_Destroy (some demo_reader) demo_state).2.fds =
      (demo_sys (regular elf_foo_bar)).fds ∧
    (SymbolReader_Destroy (some demo_reader) demo_state).2.maps =
      (demo_sys (regular elf_foo_bar)).maps ∧
    (SymbolReader_Destroy (some demo_reader) demo_state).2.log =
      demo_state.log ++ [Syscall.sc_munmap demo_reader.ehdr demo_reader.fsize 0,
        Syscall.sc_close demo_reader.fd 0] :=
  ⟨(SymbolReader_Destroy_releases_once (some SymbolReader.zero) (some ELF_FILE_PATH)
      (demo_sys (regular elf_foo_bar)) demo_reader demo_state demo_init_eq).2.2.1,
   (SymbolReader_Destroy_releases_once (some SymbolReader.zero) (some ELF_FILE_PATH)
      (demo_sys (regular elf_foo_bar)) demo_reader demo_state demo_init_eq).2.2.2.1,
   (SymbolReader_Destroy_releases_once (some SymbolReader.zero) (some ELF_FILE_PATH)
      (demo_sys (regular elf_foo_bar)) demo_reader demo_state demo_init_eq).2.2.2.2⟩

/-- C11 as stated fails after a failed initialisation, at two inputs in `demo_sys`.  On
the file with no symbol-table section `SymbolReader_Init` returns `-1` after it has
unmapped the mapping and closed descriptor 3, and leaves their address, size and number
in the struct: the following `SymbolReader_Destroy` calls `munmap` on the same range and
`close` on the same descriptor a second time, and that `close` fails.  On a path that
names no file, with a zeroed struct, `SymbolReader_Init` returns `-1` having acquired
nothing and written nothing, and the following `SymbolReader_Destroy` closes
descriptor 0. -/
theorem SymbolReader_Destroy_releases_once_fails :
    (SymbolReader_Init (some SymbolReader.zero) (some ELF_FILE_PATH)
      (demo_sys (regular elf_no_symtab))).1 = -1 ∧
    (SymbolReader_Destroy
      (SymbolReader_Init (some SymbolReader.zero) (some ELF_FILE_PATH)
        (demo_sys (regular elf_no_symtab))).2.1
      (SymbolReader_Init (some SymbolReader.zero) (some ELF_FILE_PATH)
        (demo_sys (regular elf_no_symtab))).2.2).2.log =
      [Syscall.sc_open ELF_FILE_PATH 3, Syscall.sc_fstat 3 0, Syscall.sc_mmap 137 3 4096,
        Syscall.sc_munmap 4096 137 0, Syscall.sc_close 3 0,
        Syscall.sc_munmap 4096 137 0, Syscall.sc_close 3 (-1)] ∧
    SymbolReader_Init (some SymbolReader.zero) (some MISSING_PATH)
      (demo_sys (regular elf_foo_bar)) =
      (-1, some SymbolReader.zero, (sys_open (demo_sys (regular elf_foo_bar)) MISSING_PATH).2) ∧
    (sys_open (demo_sys (regular elf_foo_bar)) MISSING_PATH).2.fds.map Prod.fst = [0, 1, 2] ∧
    (SymbolReader_Destroy (some SymbolReader.zero)
      (sys_open (demo_sys (regular elf_foo_bar)) MISSING_PATH).2).2.fds.map Prod.fst = [1, 2] ∧
    (SymbolReader_Destroy (some SymbolReader.zero)
      (sys_open (demo_sys (regular elf_foo_bar)) MISSING_PATH).2).2.log =
      [Syscall.sc_open MISSING_PATH (-1), Syscall.sc_munmap 0 0 (-1), Syscall.sc_close 0 0] := by
  refine ⟨by decide, by decide, ?_, by decide, by decide, by decide⟩
  rw [SymbolReader_Init_unfold, if_pos (by decide)]

/-! ## The entries presented lie inside the section -/

theorem blocks_mem (t : Nat) (rets : List Int) :
    ∀ i, ∀ c ∈ blocks t i rets, ∃ j, i ≤ j ∧ j < i + rets.length ∧ c.sym = t + 24 * j := by
  induction rets with
  | nil => intro i c hc; cases hc
  | cons ret rets ih =>
    intro i c hc
    simp only [blocks, List.mem_cons, List.mem_append] at hc
    rcases hc with e | e | e
    · subst e
      exact ⟨i, le_refl i, by simp, rfl⟩
    · have e1 : c = Call.action i (t + SYM_SIZE * i) := by
        by_cases h : ret = 0
        · simp [h] at e
        · simpa [h] using e
      subst e1
      exact ⟨i, le_refl i, by simp, rfl⟩
    · obtain ⟨j, h1, h2, h3⟩ := ih (i + 1) c e
      exact ⟨j, by omega, by simp only [List.length_cons]; omega, h3⟩

theorem two_symtabs_init_eq :
    SymbolReader_Init (some SymbolReader.zero) (some ELF_FILE_PATH)
      (demo_sys (regular elf_two_symtabs)) = (0, some two_symtabs_reader, two_symtabs_state) := by
  have h1 : (SymbolReader_Init (some SymbolReader.zero) (some ELF_FILE_PATH)
      (demo_sys (regular elf_two_symtabs))).1 = 0 := by decide
  have h2 : (SymbolReader_Init (some SymbolReader.zero) (some ELF_FILE_PATH)
      (demo_sys (regular elf_two_symtabs))).2.1 = some two_symtabs_reader := by decide
  rw [← h1, ← h2]
  rfl

/-- The symbol count and the table address of an initialised reader, in terms of the
selected section header. -/
theorem SymbolReader_Init_table (reader : Option SymbolReader) (fpath : Option String)
    (s : Sys) (r : SymbolReader) (s1 : Sys)
    (h : SymbolReader_Init reader fpath s = (0, some r, s1)) :
    r.sym_count = sh_size (load8 s1) r.sym_sh / 24 ∧
    r.sym_table = r.ehdr + sh_offset (load8 s1) r.sym_sh := by
  obtain ⟨r0, path, _, _, _, _, _, hp, hr⟩ := SymbolReader_Init_ok reader fpath s r s1 h
  generalize (map_elf_header r0 (sys_open s path).1 (sys_open s path).2).2.1 = rm at hr hp
  have hc := parse_symbol_header_ok_count rm s1 hp
  generalize parse_symbol_header rm s1 = p at hr hc
  have e1 : r.sym_count = p.2.sym_count := by rw [hr]
  have e2 : r.sym_sh = p.2.sym_sh := by rw [hr]
  have e3 : r.ehdr = p.2.ehdr := by rw [hr]
  have e4 : r.sym_table = SYMBOL_TABLE (load8 s1) p.2.ehdr p.2.sym_sh := by rw [hr]
  rw [e1, e2, e3, e4, hc]
  exact ⟨rfl, rfl⟩

/-! ## The section scan stays inside the mapping -/

theorem load_checked_ok (s : Sys) (base len : Nat) (n : Nat) :
    ∀ a, base ≤ a → a + n ≤ base + len →
      load_checked s base len a n = Access.value (load (load8 s) a n) := by
  induction n with
  | zero => intro a _ _; rfl
  | succ n ih =>
    intro a h1 h2
    have hin : base ≤ a ∧ a < base + len := ⟨h1, by omega⟩
    simp only [load_checked, load, if_pos hin]
    rw [ih (a + 1) (by omega) (by omega)]

/-- While the headers of the window lie inside the mapping, the checked scan returns
what the scan returns, after at most as many iterations as the window holds. -/
theorem find_symtab_checked_ok (s : Sys) (base len shdrs : Nat) (k : Nat) :
    ∀ i, (∀ j, i ≤ j → j < i + k →
        base ≤ shdrs + 64 * j ∧ shdrs + 64 * j + 64 ≤ base + len) →
      ∃ steps, steps ≤ k ∧
        find_symtab_checked s base len shdrs k i =
          Access.value (find_symtab (load8 s) shdrs k i, steps) := by
  induction k with
  | zero => intro i _; exact ⟨0, le_refl 0, rfl⟩
  | succ k ih =>
    intro i h
    obtain ⟨h1, h2⟩ := h i (le_refl i) (by omega)
    have hl := load_checked_ok s base len 4 (shdrs + SHDR_SIZE * i + 4)
      (by simp only [SHDR_SIZE]; omega) (by simp only [SHDR_SIZE]; omega)
    obtain ⟨steps, hs, hrec⟩ := ih (i + 1) (fun j hj1 hj2 => h j (by omega) (by omega))
    by_cases ht : sh_type (load8 s) (shdrs + SHDR_SIZE * i) = SHT_SYMTAB
    · refine ⟨1, by omega, ?_⟩
      have ht2 : load (load8 s) (shdrs + SHDR_SIZE * i + 4) 4 = SHT_SYMTAB := ht
      simp only [find_symtab_checked, hl, find_symtab, ht, ht2, if_true]
    · refine ⟨steps + 1, by omega, ?_⟩
      have ht2 : ¬ load (load8 s) (shdrs + SHDR_SIZE * i + 4) 4 = SHT_SYMTAB := ht
      simp only [find_symtab_checked, hl, find_symtab, ht, ht2, if_false, hrec]

theorem parse_symbol_header_sym_sh (r : SymbolReader) (s : Sys) :
    (parse_symbol_header r s).2.sym_sh =
      find_symtab (load8 s) (r.ehdr + e_shoff (load8 s) r.ehdr) (e_shnum (load8 s) r.ehdr) 0 := by
  unfold parse_symbol_header
  dsimp only
  split <;> rfl

/-- With the two header fields and the section-header table inside the mapping, the
checked `parse_symbol_header` returns what `parse_symbol_header` returns. -/
theorem parse_symbol_header_checked_ok (r : SymbolReader) (s : Sys)
    (hhdr : 62 ≤ r.fsize)
    (htable : e_shoff (load8 s) r.ehdr + 64 * e_shnum (load8 s) r.ehdr ≤ r.fsize) :
    parse_symbol_header_checked r s = Access.value (parse_symbol_header r s) := by
  have h1 := load_checked_ok s r.ehdr r.fsize 8 (r.ehdr + 40) (by omega) (by omega)
  have h2 := load_checked_ok s r.ehdr r.fsize 2 (r.ehdr + 60) (by omega) (by omega)
  have hoff : load (load8 s) (r.ehdr + 40) 8 = e_shoff (load8 s) r.ehdr := rfl
  have hnum : load (load8 s) (r.ehdr + 60) 2 = e_shnum (load8 s) r.ehdr := rfl
  rw [hoff] at h1
  rw [hnum] at h2
  obtain ⟨steps, _, hscan⟩ := find_symtab_checked_ok s r.ehdr r.fsize
    (r.ehdr + e_shoff (load8 s) r.ehdr) (e_shnum (load8 s) r.ehdr) 0
    (fun j _ hj => ⟨by omega, by omega⟩)
  unfold parse_symbol_header_checked parse_symbol_header
  simp only [h1, h2, hscan, SECTION_HEADERS, SECTION_COUNT]
  rcases find_symtab_cases (load8 s) (r.ehdr + e_shoff (load8 s) r.ehdr)
      (e_shnum (load8 s) r.ehdr) 0 with ⟨hz, _⟩ | ⟨j, _, hjn, _, _, hf⟩
  · simp only [hz, if_true]
  · by_cases h0 : find_symtab (load8 s) (r.ehdr + e_shoff (load8 s) r.ehdr)
        (e_shnum (load8 s) r.ehdr) 0 = 0
    · simp only [h0, if_true]
    · simp only [h0, if_false]
      have h3 := load_checked_ok s r.ehdr r.fsize 8
        (find_symtab (load8 s) (r.ehdr + e_shoff (load8 s) r.ehdr)
          (e_shnum (load8 s) r.ehdr) 0 + 32)
        (by rw [hf]; simp only [SHDR_SIZE]; omega)
        (by rw [hf]; simp only [SHDR_SIZE]; omega)
      simp only [h3, SYMBOL_COUNT, sh_size]

/-- C19: for every mapped file whose section-header table lies inside the mapping
(`e_shoff + 64 * e_shnum ≤ fsize`), the section scan of `parse_symbol_header` with
bounds-checked loads never takes the out-of-range branch: it returns the `sym_sh` that
`parse_symbol_header` finds, after at most `e_shnum` iterations, so every byte the scan
loads lies inside the mapped length.  When the table holds at least one header, all of
`parse_symbol_header` with checked loads (the header fields `e_shoff` and `e_shnum` and
`sh_size` of the selected header included) returns what `parse_symbol_header`
returns. -/
theorem parse_symbol_header_scan_in_range (s : Sys) (r : SymbolReader) (path : String)
    (rm : SymbolReader) (sm : Sys)
    (hmap : map_elf_header r (sys_open s path).1 (sys_open s path).2 = (0, rm, sm))
    (htable : e_shoff (load8 sm) rm.ehdr + 64 * e_shnum (load8 sm) rm.ehdr ≤ rm.fsize) :
    (∃ bytes, sm.maps = { addr := rm.ehdr, len := rm.fsize, bytes := bytes } :: s.maps) ∧
    (∃ steps, steps ≤ e_shnum (load8 sm) rm.ehdr ∧
      find_symtab_checked sm rm.ehdr rm.fsize (rm.ehdr + e_shoff (load8 sm) rm.ehdr)
        (e_shnum (load8 sm) rm.ehdr) 0 =
          Access.value ((parse_symbol_header rm sm).2.sym_sh, steps)) ∧
    (0 < e_shnum (load8 sm) rm.ehdr →
      parse_symbol_header_checked rm sm = Access.value (parse_symbol_header rm sm)) := by
  refine ⟨?_, ?_, ?_⟩
  · have hc := (map_elf_header_cases r (sys_open s path).1 (sys_open s path).2).2
    have ho : (sys_open s path).2.maps = s.maps := by
      rcases sys_open_cases s path with ⟨_, _, h3⟩ | ⟨_, h2, _⟩
      · exact h3
      · exact h2
    rw [hmap, ho] at hc
    rcases hc with ⟨h1, _⟩ | ⟨_, _, _, bytes, h4⟩
    · exact absurd (show (0 : Int) = -1 from h1) (by decide)
    · exact ⟨bytes, h4⟩
  · obtain ⟨steps, hs, hscan⟩ := find_symtab_checked_ok sm rm.ehdr rm.fsize
      (rm.ehdr + e_shoff (load8 sm) rm.ehdr) (e_shnum (load8 sm) rm.ehdr) 0
      (fun j _ hj => ⟨by omega, by omega⟩)
    exact ⟨steps, hs, by rw [hscan, parse_symbol_header_sym_sh]⟩
  · intro hpos
    exact parse_symbol_header_checked_ok rm sm (by omega) htable

/-- C19 at `elf_foo_bar`, whose table of two headers ends at byte 192 of 249. -/
theorem parse_symbol_header_scan_in_range_witness :
    (∃ steps, steps ≤ e_shnum (load8 (demo_mapped (regular elf_foo_bar)).2.2)
        (demo_mapped (regular elf_foo_bar)).2.1.ehdr ∧
      find_symtab_checked (demo_mapped (regular elf_foo_bar)).2.2
        (demo_mapped (regular elf_foo_bar)).2.1.ehdr
        (demo_mapped (regular elf_foo_bar)).2.1.fsize
        ((demo_mapped (regular elf_foo_bar)).2.1.ehdr +
          e_shoff (load8 (demo_mapped (regular elf_foo_bar)).2.2)
            (demo_mapped (regular elf_foo_bar)).2.1.ehdr)
        (e_shnum (load8 (demo_mapped (regular elf_foo_bar)).2.2)
          (demo_mapped (regular elf_foo_bar)).2.1.ehdr) 0 =
        Access.value ((parse_symbol_header (demo_mapped (regular elf_foo_bar)).2.1
          (demo_mapped (regular elf_foo_bar)).2.2).2.sym_sh, steps)) ∧
    parse_symbol_header_checked (demo_mapped (regular elf_foo_bar)).2.1
      (demo_mapped (regular elf_foo_bar)).2.2 =
      Access.value (parse_symbol_header (demo_mapped (regular elf_foo_bar)).2.1
        (demo_mapped (regular elf_foo_bar)).2.2) :=
  ⟨(parse_symbol_header_scan_in_range (demo_sys (regular elf_foo_bar)) SymbolReader.zero
      ELF_FILE_PATH _ _ (demo_mapped_eq _ (by decide)) (by decide)).2.1,
   (parse_symbol_header_scan_in_range (demo_sys (regular elf_foo_bar)) SymbolReader.zero
      ELF_FILE_PATH _ _ (demo_mapped_eq _ (by decide)) (by decide)).2.2 (by decide)⟩

/-! ## A checked run that returns agrees with the unchecked run -/

theorem load_checked_value (s : Sys) (base len : Nat) (n : Nat) :
    ∀ a v, load_checked s base len a n = Access.value v → v = load (load8 s) a n := by
  induction n with
  | zero =>
    intro a v h
    simp only [load_checked, Access.value.injEq] at h
    rw [← h]
    rfl
  | succ n ih =>
    intro a v h
    simp only [load_checked] at h
    split at h
    · split at h
      · rename_i w hw
        simp only [Access.value.injEq] at h
        rw [← h, ih (a + 1) w hw]
        rfl
      · cases h
    · cases h

theorem find_symtab_checked_value (s : Sys) (base len shdrs : Nat) (k : Nat) :
    ∀ i p, find_symtab_checked s base len shdrs k i = Access.value p →
      p.1 = find_symtab (load8 s) shdrs k i := by
  induction k with
  | zero =>
    intro i p h
    simp only [find_symtab_checked, Access.value.injEq] at h
    rw [← h]
    rfl
  | succ k ih =>
    intro i p h
    simp only [find_symtab_checked] at h
    split at h
    · cases h
    · rename_i t ht
      have e := load_checked_value s base len 4 _ t ht
      have e2 : t = sh_type (load8 s) (shdrs + SHDR_SIZE * i) := e
      split at h
      · rename_i hsym
        simp only [Access.value.injEq] at h
        rw [← h]
        simp only [find_symtab]
        rw [if_pos (e2 ▸ hsym)]
      · rename_i hsym
        split at h
        · rename_i q hq
          simp only [Access.value.injEq] at h
          rw [← h]
          simp only [find_symtab]
          rw [if_neg (e2 ▸ hsym)]
          exact ih (i + 1) q hq
        · cases h

theorem parse_symbol_header_checked_value (r : SymbolReader) (s : Sys)
    (p : Int × SymbolReader) (h : parse_symbol_header_checked r s = Access.value p) :
    p = parse_symbol_header r s := by
  unfold parse_symbol_header_checked at h
  split at h
  · cases h
  · rename_i shoff h1
    have e1 : shoff = e_shoff (load8 s) r.ehdr := load_checked_value s _ _ 8 _ shoff h1
    dsimp only at h
    split at h
    · cases h
    · rename_i shnum h2
      have e2 : shnum = e_shnum (load8 s) r.ehdr := load_checked_value s _ _ 2 _ shnum h2
      split at h
      · cases h
      · rename_i q h3
        have e3 := find_symtab_checked_value s _ _ _ _ _ q h3
        subst e1
        subst e2
        unfold parse_symbol_header
        simp only [SECTION_HEADERS, SECTION_COUNT]
        rw [← e3]
        split at h
        · rename_i hz
          simp only [Access.value.injEq] at h
          rw [← h, if_pos hz]
        · rename_i hz
          split at h
          · cases h
          · rename_i size h4
            have e4 : size = sh_size (load8 s) (q.1) := load_checked_value s _ _ 8 _ size h4
            simp only [Access.value.injEq] at h
            rw [← h, if_neg hz, e4]
            rfl

theorem SYMBOL_TABLE_checked_value (s : Sys) (base len ehdr sym_sh v : Nat)
    (h : SYMBOL_TABLE_checked s base len ehdr sym_sh = Access.value v) :
    v = SYMBOL_TABLE (load8 s) ehdr sym_sh := by
  unfold SYMBOL_TABLE_checked at h
  split at h
  · cases h
  · rename_i off h1
    have e : off = sh_offset (load8 s) sym_sh := load_checked_value s _ _ 8 _ off h1
    simp only [Access.value.injEq] at h
    rw [← h, e]
    rfl

theorem STRING_TABLE_checked_value (s : Sys) (base len ehdr shdrs sym_sh v : Nat)
    (h : STRING_TABLE_checked s base len ehdr shdrs sym_sh = Access.value v) :
    v = STRING_TABLE (load8 s) ehdr shdrs sym_sh := by
  unfold STRING_TABLE_checked at h
  split at h
  · cases h
  · rename_i link h1
    have e1 : link = sh_link (load8 s) sym_sh := load_checked_value s _ _ 4 _ link h1
    split at h
    · cases h
    · rename_i off h2
      have e2 : off = sh_offset (load8 s) (shdrs + SHDR_SIZE * link) :=
        load_checked_value s _ _ 8 _ off h2
      simp only [Access.value.injEq] at h
      rw [← h, e2, e1]
      rfl

/-- A checked run of `SymbolReader_Init` that returns, returns what `SymbolReader_Init`
returns. -/
theorem SymbolReader_Init_checked_value (reader : Option SymbolReader)
    (fpath : Option String) (s : Sys) (x : Int × Option SymbolReader × Sys)
    (h : SymbolReader_Init_checked reader fpath s = Access.value x) :
    x = SymbolReader_Init reader fpath s := by
  cases reader with
  | none =>
    have e : SymbolReader_Init_checked none fpath s = Access.value (-1, none, s) := by
      cases fpath <;> rfl
    rw [e, Access.value.injEq] at h
    rw [← h]
    cases fpath <;> rfl
  | some r =>
    cases fpath with
    | none =>
      have e : SymbolReader_Init_checked (some r) none s = Access.value (-1, some r, s) := rfl
      rw [e, Access.value.injEq] at h
      rw [← h]
      rfl
    | some path =>
      rw [SymbolReader_Init_unfold]
      unfold SymbolReader_Init_checked at h
      dsimp only at h
      split at h
      · rename_i ho
        rw [if_pos ho]
        simp only [Access.value.injEq] at h
        exact h.symm
      · rename_i ho
        rw [if_neg ho]
        split at h
        · rename_i hm
          rw [if_pos hm]
          simp only [Access.value.injEq] at h
          exact h.symm
        · rename_i hm
          rw [if_neg hm]
          split at h
          · cases h
          · rename_i p hp
            have ep := parse_symbol_header_checked_value _ _ p hp
            subst ep
            split at h
            · rename_i h1
              rw [if_pos h1]
              simp only [Access.value.injEq] at h
              exact h.symm
            · rename_i h1
              rw [if_neg h1]
              split at h
              · cases h
              · rename_i st hst
                have est := SYMBOL_TABLE_checked_value _ _ _ _ _ st hst
                split at h
                · cases h
                · rename_i str hstr
                  have estr := STRING_TABLE_checked_value _ _ _ _ _ _ str hstr
                  simp only [Access.value.injEq] at h
                  rw [← h, estr, est]

/-! ## The checked run of `SymbolReader_Init` with every load inside the file -/

theorem parse_symbol_header_ok_index (r : SymbolReader) (s : Sys) (h0 : 0 < r.ehdr)
    (h : (parse_symbol_header r s).1 ≠ -1) :
    ∃ j, j < e_shnum (load8 s) r.ehdr ∧
      (parse_symbol_header r s).2.sym_sh = r.ehdr + e_shoff (load8 s) r.ehdr + 64 * j := by
  rcases find_symtab_cases (load8 s) (SECTION_HEADERS (load8 s) r.ehdr)
      (SECTION_COUNT (load8 s) r.ehdr) 0 with ⟨hz, _⟩ | ⟨j, _, hjn, _, _, hf⟩
  · exact absurd (by rw [parse_symbol_header_missing r s hz]) h
  · refine ⟨j, by simpa [SECTION_COUNT] using hjn, ?_⟩
    rw [parse_symbol_header_found r s j h0 hf]
    simp [SECTION_HEADERS, SHDR_SIZE]

theorem SYMBOL_TABLE_checked_ok (s : Sys) (base len ehdr sym_sh : Nat)
    (h1 : base ≤ sym_sh) (h2 : sym_sh + 32 ≤ base + len) :
    SYMBOL_TABLE_checked s base len ehdr sym_sh =
      Access.value (SYMBOL_TABLE (load8 s) ehdr sym_sh) := by
  unfold SYMBOL_TABLE_checked
  rw [load_checked_ok s base len 8 (sym_sh + 24) (by omega) (by omega)]
  rfl

theorem STRING_TABLE_checked_ok (s : Sys) (base len ehdr shdrs sym_sh : Nat)
    (h1 : base ≤ sym_sh) (h2 : sym_sh + 44 ≤ base + len) (h3 : base ≤ shdrs)
    (h4 : shdrs + 64 * sh_link (load8 s) sym_sh + 32 ≤ base + len) :
    STRING_TABLE_checked s base len ehdr shdrs sym_sh =
      Access.value (STRING_TABLE (load8 s) ehdr shdrs sym_sh) := by
  have e : load (load8 s) (sym_sh + 40) 4 = sh_link (load8 s) sym_sh := rfl
  unfold STRING_TABLE_checked
  rw [load_checked_ok s base len 4 (sym_sh + 40) (by omega) (by omega)]
  dsimp only
  rw [e, load_checked_ok s base len 8 (shdrs + SHDR_SIZE * sh_link (load8 s) sym_sh + 24)
    (by simp only [SHDR_SIZE]; omega) (by simp only [SHDR_SIZE]; omega)]
  rfl

/-- With the ELF header, the section-header table and, when a symbol-table header is
found, the header it links to inside the mapped file, the checked run of
`SymbolReader_Init` returns, and returns what `SymbolReader_Init` returns. -/
theorem SymbolReader_Init_checked_ok (s : Sys) (r : SymbolReader) (path : String)
    (rm : SymbolReader) (sm : Sys) (hopen : (sys_open s path).1 ≠ -1)
    (hmap : map_elf_header r (sys_open s path).1 (sys_open s path).2 = (0, rm, sm))
    (hhdr : 62 ≤ rm.fsize)
    (htable : e_shoff (load8 sm) rm.ehdr + 64 * e_shnum (load8 sm) rm.ehdr ≤ rm.fsize)
    (hlink : (parse_symbol_header rm sm).1 ≠ -1 →
      e_shoff (load8 sm) rm.ehdr +
        64 * sh_link (load8 sm) (parse_symbol_header rm sm).2.sym_sh + 32 ≤ rm.fsize) :
    SymbolReader_Init_checked (some r) (some path) s =
      Access.value (SymbolReader_Init (some r) (some path) s) := by
  have h0 : 0 < rm.ehdr := by
    have := map_elf_header_ehdr r _ _ rm sm hmap
    omega
  have hI := SymbolReader_Init_mapped s r path rm sm hopen hmap
  have hp := parse_symbol_header_checked_ok rm sm hhdr htable
  obtain ⟨fe, ff, _⟩ := parse_symbol_header_frame rm sm
  have hs := parse_symbol_header_shdrs rm sm
  unfold SymbolReader_Init_checked
  simp only [hopen, hmap, if_false, hp, show ((0 : Int) = -1) = False from by decide]
  rw [hI]
  by_cases h1 : (parse_symbol_header rm sm).1 = -1
  · simp only [h1, if_true]
  · obtain ⟨j, hj, hsh⟩ := parse_symbol_header_ok_index rm sm h0 h1
    have hl := hlink h1
    simp only [h1, if_false]
    rw [SYMBOL_TABLE_checked_ok sm _ _ _ _ (by rw [fe, hsh]; omega)
      (by rw [fe, ff, hsh]; omega)]
    dsimp only
    rw [STRING_TABLE_checked_ok sm _ _ _ _ _ (by rw [fe, hsh]; omega)
      (by rw [fe, ff, hsh]; omega) (by rw [fe, hs]; unfold SECTION_HEADERS; omega)
      (by rw [fe, ff, hs]; unfold SECTION_HEADERS; omega)]

/-- C1 (amended): for every file that was opened and mapped, whose section-header table
lies inside the file (`e_shoff + 64 * e_shnum ≤ fsize`), in which a section header of
index below `e_shnum` has type `SHT_SYMTAB`, and in which the `sh_offset` field of the
header at index `sh_link` of the selected header lies inside the file, every load of
`SymbolReader_Init` is inside the mapping and the call returns `0`; the selected header
`sym_sh` is one of the first `e_shnum` headers and has that type, and `sym_count` is
`sh_size / 24` of the selected header rounded down, the remainder bytes ignored. -/
theorem SymbolReader_Init_checked_sym_count (s : Sys) (r : SymbolReader) (path : String)
    (rm : SymbolReader) (sm : Sys) (hopen : (sys_open s path).1 ≠ -1)
    (hmap : map_elf_header r (sys_open s path).1 (sys_open s path).2 = (0, rm, sm))
    (i : Nat) (hi : i < e_shnum (load8 sm) rm.ehdr)
    (ht : sh_type (load8 sm) (rm.ehdr + e_shoff (load8 sm) rm.ehdr + 64 * i) = SHT_SYMTAB)
    (htable : e_shoff (load8 sm) rm.ehdr + 64 * e_shnum (load8 sm) rm.ehdr ≤ rm.fsize)
    (hlink : e_shoff (load8 sm) rm.ehdr +
      64 * sh_link (load8 sm) (parse_symbol_header rm sm).2.sym_sh + 32 ≤ rm.fsize) :
    ∃ r1 : SymbolReader,
      SymbolReader_Init_checked (some r) (some path) s = Access.value (0, some r1, sm) ∧
      (∃ j, j < e_shnum (load8 sm) rm.ehdr ∧
        r1.sym_sh = rm.ehdr + e_shoff (load8 sm) rm.ehdr + 64 * j ∧
        sh_type (load8 sm) r1.sym_sh = SHT_SYMTAB) ∧
      r1.sym_count = sh_size (load8 sm) r1.sym_sh / 24 ∧
      24 * r1.sym_count ≤ sh_size (load8 sm) r1.sym_sh ∧
      sh_size (load8 sm) r1.sym_sh < 24 * r1.sym_count + 24 := by
  obtain ⟨r1, hI, rest⟩ :=
    SymbolReader_Init_sym_count_unchecked s r path rm sm hopen hmap i hi ht
  refine ⟨r1, ?_, rest⟩
  rw [SymbolReader_Init_checked_ok s r path rm sm hopen hmap (by omega) htable
    (fun _ => hlink), hI]

/-- C1 (amended) at the file with two symbol-table sections, all of whose headers lie
inside the file and of which the first declares 50 bytes: the count is 2. -/
theorem SymbolReader_Init_checked_sym_count_witness :
    ∃ r1 : SymbolReader,
      SymbolReader_Init_checked (some SymbolReader.zero) (some ELF_FILE_PATH)
        (demo_sys (regular elf_two_symtabs)) =
          Access.value (0, some r1, (demo_mapped (regular elf_two_symtabs)).2.2) ∧
      (∃ j, j < e_shnum (load8 (demo_mapped (regular elf_two_symtabs)).2.2)
          (demo_mapped (regular elf_two_symtabs)).2.1.ehdr ∧
        r1.sym_sh = (demo_mapped (regular elf_two_symtabs)).2.1.ehdr +
          e_shoff (load8 (demo_mapped (regular elf_two_symtabs)).2.2)
            (demo_mapped (regular elf_two_symtabs)).2.1.ehdr + 64 * j ∧
        sh_type (load8 (demo_mapped (regular elf_two_symtabs)).2.2) r1.sym_sh = SHT_SYMTAB) ∧
      r1.sym_count = sh_size (load8 (demo_mapped (regular elf_two_symtabs)).2.2) r1.sym_sh / 24 ∧
      24 * r1.sym_count ≤ sh_size (load8 (demo_mapped (regular elf_two_symtabs)).2.2) r1.sym_sh ∧
      sh_size (load8 (demo_mapped (regular elf_two_symtabs)).2.2) r1.sym_sh <
        24 * r1.sym_count + 24 :=
  SymbolReader_Init_checked_sym_count (demo_sys (regular elf_two_symtabs)) SymbolReader.zero
    ELF_FILE_PATH _ _ (by decide) (demo_mapped_eq _ (by decide)) 2 (by decide) (by decide)
    (by decide) (by decide)

/-- C1 as stated fails: `elf_bad_link` is opened and mapped at `[4096, 4096 + 176)`, the
only mapping of the process.  Its section-header table, one header at offset 64, lies
inside the file and the header has type `SHT_SYMTAB`, but its `sh_link` is `2 ^ 32 - 1`:
`STRING_TABLE` loads `sh_offset` of the header at that index, at address
`4160 + 64 * (2 ^ 32 - 1) + 24 = 274877911064`, far above the page of the mapping, and
`SymbolReader_Init` does not return `0`: it does not return. -/
theorem SymbolReader_Init_checked_sym_count_fails :
    (sys_open (demo_sys (regular elf_bad_link)) ELF_FILE_PATH).1 ≠ -1 ∧
    (demo_mapped (regular elf_bad_link)).1 = 0 ∧
    (demo_mapped (regular elf_bad_link)).2.1.ehdr = 4096 ∧
    (demo_mapped (regular elf_bad_link)).2.1.fsize = 176 ∧
    (demo_mapped (regular elf_bad_link)).2.2.maps.map (fun m => (m.addr, m.len)) =
      [(4096, 176)] ∧
    e_shoff (load8 (demo_mapped (regular elf_bad_link)).2.2) 4096 = 64 ∧
    e_shnum (load8 (demo_mapped (regular elf_bad_link)).2.2) 4096 = 1 ∧
    sh_type (load8 (demo_mapped (regular elf_bad_link)).2.2) (4096 + 64 + 64 * 0) =
      SHT_SYMTAB ∧
    sh_link (load8 (demo_mapped (regular elf_bad_link)).2.2) (4096 + 64 + 64 * 0) =
      2 ^ 32 - 1 ∧
    (SymbolReader_Init_checked (some SymbolReader.zero) (some ELF_FILE_PATH)
      (demo_sys (regular elf_bad_link))).fault = some 274877911064 ∧
    ¬ ∃ x, SymbolReader_Init_checked (some SymbolReader.zero) (some ELF_FILE_PATH)
      (demo_sys (regular elf_bad_link)) = Access.value x := by
  have hf : (SymbolReader_Init_checked (some SymbolReader.zero) (some ELF_FILE_PATH)
      (demo_sys (regular elf_bad_link))).fault = some 274877911064 := by decide
  refine ⟨by decide, by decide, by decide, by decide, by decide, by decide, by decide,
    by decide, by decide, hf, ?_⟩
  rintro ⟨x, hx⟩
  rw [hx] at hf
  cases hf

/-- C3 (amended): given that open, stat and map succeeded and that the fields `e_shoff`
and `e_shnum` of the ELF header and the section-header table lie inside the mapped file,
the section-location stage `parse_symbol_header` makes every load inside the mapping and
returns, and it returns `-1` exactly when no section header of index `0 .. e_shnum - 1`
has type `SHT_SYMTAB`; `SymbolReader_Init` returns `-1` exactly in that case, so always
when `e_shnum` is `0`; and whenever `SymbolReader_Init` returns anything else, it
returns `0`. -/
theorem SymbolReader_Init_checked_fails_iff (s : Sys) (r : SymbolReader) (path : String)
    (rm : SymbolReader) (sm : Sys) (hopen : (sys_open s path).1 ≠ -1)
    (hmap : map_elf_header r (sys_open s path).1 (sys_open s path).2 = (0, rm, sm))
    (hhdr : 62 ≤ rm.fsize)
    (htable : e_shoff (load8 sm) rm.ehdr + 64 * e_shnum (load8 sm) rm.ehdr ≤ rm.fsize) :
    parse_symbol_header_checked rm sm = Access.value (parse_symbol_header rm sm) ∧
    ((parse_symbol_header rm sm).1 = -1 ↔
      ∀ i, i < e_shnum (load8 sm) rm.ehdr →
        sh_type (load8 sm) (rm.ehdr + e_shoff (load8 sm) rm.ehdr + 64 * i) ≠ SHT_SYMTAB) ∧
    ((∃ x, SymbolReader_Init_checked (some r) (some path) s = Access.value x ∧ x.1 = -1) ↔
      ∀ i, i < e_shnum (load8 sm) rm.ehdr →
        sh_type (load8 sm) (rm.ehdr + e_shoff (load8 sm) rm.ehdr + 64 * i) ≠ SHT_SYMTAB) ∧
    (e_shnum (load8 sm) rm.ehdr = 0 →
      ∃ x, SymbolReader_Init_checked (some r) (some path) s = Access.value x ∧ x.1 = -1) ∧
    (∀ x, SymbolReader_Init_checked (some r) (some path) s = Access.value x →
      x.1 ≠ -1 → x.1 = 0) := by
  obtain ⟨hinit, hparse, _, hzero⟩ :=
    SymbolReader_Init_fails_iff_unchecked s r path rm sm hopen hmap
  have hback : (∀ i, i < e_shnum (load8 sm) rm.ehdr →
      sh_type (load8 sm) (rm.ehdr + e_shoff (load8 sm) rm.ehdr + 64 * i) ≠ SHT_SYMTAB) →
      ∃ x, SymbolReader_Init_checked (some r) (some path) s = Access.value x ∧ x.1 = -1 := by
    intro hnone
    have hp : (parse_symbol_header rm sm).1 = -1 := hparse.2 hnone
    exact ⟨_, SymbolReader_Init_checked_ok s r path rm sm hopen hmap hhdr htable
      (fun hne => absurd hp hne), hinit.2 hnone⟩
  refine ⟨parse_symbol_header_checked_ok rm sm hhdr htable, hparse, ⟨?_, hback⟩, ?_, ?_⟩
  · rintro ⟨x, hx, hx1⟩
    have e := SymbolReader_Init_checked_value _ _ _ x hx
    rw [e] at hx1
    exact hinit.1 hx1
  · intro h0
    exact hback (fun i hi => by omega)
  · intro x hx hx1
    have e := SymbolReader_Init_checked_value _ _ _ x hx
    rw [e] at hx1 ⊢
    exact hzero hx1

/-- C3 (amended) at the file without a symbol-table section, where initialisation
returns `-1`, and at `elf_foo_bar`, where it returns `0`. -/
theorem SymbolReader_Init_checked_fails_iff_witness :
    (∃ x, SymbolReader_Init_checked (some SymbolReader.zero) (some ELF_FILE_PATH)
      (demo_sys (regular elf_no_symtab)) = Access.value x ∧ x.1 = -1) ∧
    (∀ x, SymbolReader_Init_checked (some SymbolReader.zero) (some ELF_FILE_PATH)
      (demo_sys (regular elf_foo_bar)) = Access.value x → x.1 ≠ -1 → x.1 = 0) :=
  ⟨(SymbolReader_Init_checked_fails_iff (demo_sys (regular elf_no_symtab)) SymbolReader.zero
      ELF_FILE_PATH _ _ (by decide) (demo_mapped_eq _ (by decide)) (by decide)
      (by decide)).2.2.1.2 (by decide),
   (SymbolReader_Init_checked_fails_iff (demo_sys (regular elf_foo_bar)) SymbolReader.zero
      ELF_FILE_PATH _ _ (by decide) (demo_mapped_eq _ (by decide)) (by decide)
      (by decide)).2.2.2.2⟩

/-- C3 as stated fails: `elf_far_table`, 64 bytes, is opened and mapped at
`[4096, 4096 + 64)`, the only mapping of the process, and declares one section header at
offset `2 ^ 62`, far outside the file.  No header of type `SHT_SYMTAB` is found at index
`0`, yet `SymbolReader_Init` does not return `-1`: the scan loads `sh_type` at address
`4096 + 2 ^ 62 + 4 = 4611686018427392004`, far above the page of the mapping, and the
call does not return. -/
theorem SymbolReader_Init_checked_fails_iff_fails :
    (sys_open (demo_sys (regular elf_far_table)) ELF_FILE_PATH).1 ≠ -1 ∧
    (demo_mapped (regular elf_far_table)).1 = 0 ∧
    (demo_mapped (regular elf_far_table)).2.1.ehdr = 4096 ∧
    (demo_mapped (regular elf_far_table)).2.1.fsize = 64 ∧
    (demo_mapped (regular elf_far_table)).2.2.maps.map (fun m => (m.addr, m.len)) =
      [(4096, 64)] ∧
    e_shoff (load8 (demo_mapped (regular elf_far_table)).2.2) 4096 = 2 ^ 62 ∧
    e_shnum (load8 (demo_mapped (regular elf_far_table)).2.2) 4096 = 1 ∧
    (∀ i, i < e_shnum (load8 (demo_mapped (regular elf_far_table)).2.2) 4096 →
      sh_type (load8 (demo_mapped (regular elf_far_table)).2.2)
        (4096 + e_shoff (load8 (demo_mapped (regular elf_far_table)).2.2) 4096 + 64 * i) ≠
          SHT_SYMTAB) ∧
    (SymbolReader_Init_checked (some SymbolReader.zero) (some ELF_FILE_PATH)
      (demo_sys (regular elf_far_table))).fault = some 4611686018427392004 ∧
    ¬ ∃ x, SymbolReader_Init_checked (some SymbolReader.zero) (some ELF_FILE_PATH)
      (demo_sys (regular elf_far_table)) = Access.value x ∧ x.1 = -1 := by
  have hn : e_shnum (load8 (demo_mapped (regular elf_far_table)).2.2) 4096 = 1 := by decide
  have hf : (SymbolReader_Init_checked (some SymbolReader.zero) (some ELF_FILE_PATH)
      (demo_sys (regular elf_far_table))).fault = some 4611686018427392004 := by decide
  refine ⟨by decide, by decide, by decide, by decide, by decide, by decide, hn, ?_, hf, ?_⟩
  · intro i hi
    rw [hn] at hi
    have e : i = 0 := by omega
    subst e
    decide
  · rintro ⟨x, hx, _⟩
    rw [hx] at hf
    cases hf

/-! ## The views of an initialised reader -/

/-- C14: on every successful init whose headers and tables lie in the 64-bit address
space (the selected header ends at or below `2 ^ 64`, so does the header at index
`sh_link`, and both table addresses are below `2 ^ 64`), the derived views are offsets
taken from the headers: `shdrs` is the header base plus `e_shoff`, `sym_table` is the
header base plus the `sh_offset` of the selected section header `sym_sh`, and
`str_table` is the header base plus the `sh_offset` of the section header at index
`sym_sh.sh_link` of the array at `shdrs`.  The header base is non-null, and each of the
values fits the 64-bit pointer field that holds it. -/
theorem SymbolReader_Init_views (reader : Option SymbolReader) (fpath : Option String)
    (s : Sys) (r : SymbolReader) (s1 : Sys)
    (h : SymbolReader_Init reader fpath s = (0, some r, s1))
    (hsh : r.sym_sh + 64 ≤ 2 ^ 64)
    (hsym : r.ehdr + sh_offset (load8 s1) r.sym_sh < 2 ^ 64)
    (hlink : r.ehdr + e_shoff (load8 s1) r.ehdr + 64 * sh_link (load8 s1) r.sym_sh + 64 ≤
      2 ^ 64)
    (hstr : r.ehdr + sh_offset (load8 s1)
      (r.ehdr + e_shoff (load8 s1) r.ehdr + 64 * sh_link (load8 s1) r.sym_sh) < 2 ^ 64) :
    r.shdrs = r.ehdr + e_shoff (load8 s1) r.ehdr ∧
    r.sym_table = r.ehdr + sh_offset (load8 s1) r.sym_sh ∧
    r.str_table = r.ehdr + sh_offset (load8 s1) (r.shdrs + 64 * sh_link (load8 s1) r.sym_sh) ∧
    r.ehdr ≠ 0 ∧
    r.ehdr < 2 ^ 64 ∧ r.shdrs < 2 ^ 64 ∧ r.sym_sh < 2 ^ 64 ∧ r.sym_table < 2 ^ 64 ∧
    r.str_table < 2 ^ 64 := by
  obtain ⟨r0, path, _, _, _, hm0, _, hp, hr⟩ := SymbolReader_Init_ok reader fpath s r s1 h
  have hb := map_elf_header_ehdr r0 (sys_open s path).1 (sys_open s path).2 _ _
    (pair_eq_of_fst _ hm0)
  generalize (map_elf_header r0 (sys_open s path).1 (sys_open s path).2).2.1 = rm at hr hb hp
  have he := (parse_symbol_header_frame rm s1).1
  have hs := parse_symbol_header_shdrs rm s1
  obtain ⟨j, _, hj⟩ := parse_symbol_header_ok_index rm s1 (by omega) hp
  generalize parse_symbol_header rm s1 = p at hr he hs hj
  have e1 : r.shdrs = p.2.shdrs := by rw [hr]
  have e2 : r.ehdr = p.2.ehdr := by rw [hr]
  have e3 : r.sym_sh = p.2.sym_sh := by rw [hr]
  have e4 : r.sym_table = SYMBOL_TABLE (load8 s1) p.2.ehdr p.2.sym_sh := by rw [hr]
  have e5 : r.str_table = STRING_TABLE (load8 s1) p.2.ehdr p.2.shdrs p.2.sym_sh := by rw [hr]
  have a1 : r.shdrs = r.ehdr + e_shoff (load8 s1) r.ehdr := by
    rw [e1, e2, hs, he]
    rfl
  have a2 : r.sym_table = r.ehdr + sh_offset (load8 s1) r.sym_sh := by
    rw [e4, e2, e3]
    rfl
  have a3 : r.str_table =
      r.ehdr + sh_offset (load8 s1) (r.shdrs + 64 * sh_link (load8 s1) r.sym_sh) := by
    rw [e5, e1, e2, e3]
    rfl
  have a4 : r.sym_sh = r.ehdr + e_shoff (load8 s1) r.ehdr + 64 * j := by
    rw [e3, e2, hj, he]
  have a5 : r.ehdr = rm.ehdr := by rw [e2, he]
  refine ⟨a1, a2, a3, by omega, by omega, by omega, by omega, by omega, ?_⟩
  rw [a3, a1]
  exact hstr

/-- C14 at `elf_foo_bar`: the views of the reader it leaves. -/
theorem SymbolReader_Init_views_witness :
    demo_reader.shdrs = demo_reader.ehdr + e_shoff (load8 demo_state) demo_reader.ehdr ∧
    demo_reader.sym_table =
      demo_reader.ehdr + sh_offset (load8 demo_state) demo_reader.sym_sh ∧
    demo_reader.str_table = demo_reader.ehdr +
      sh_offset (load8 demo_state)
        (demo_reader.shdrs + 64 * sh_link (load8 demo_state) demo_reader.sym_sh) ∧
    demo_reader.ehdr ≠ 0 ∧
    demo_reader.ehdr < 2 ^ 64 ∧ demo_reader.shdrs < 2 ^ 64 ∧ demo_reader.sym_sh < 2 ^ 64 ∧
    demo_reader.sym_table < 2 ^ 64 ∧ demo_reader.str_table < 2 ^ 64 :=
  SymbolReader_Init_views (some SymbolReader.zero) (some ELF_FILE_PATH)
    (demo_sys (regular elf_foo_bar)) demo_reader demo_state demo_init_eq
    (by decide) (by decide) (by decide) (by decide)

/-! ## A second teardown -/

/-- C17 (amended): for every reader and every process state, `SymbolReader_Destroy`
leaves the struct all-zero and the descriptor of the reader closed, and a second
`SymbolReader_Destroy` right after it leaves the struct all-zero, unmaps no mapping (it
calls `munmap(0, 0)`, which fails) and calls `close(0)`, `0` being what the cleared
field `fd` holds: it closes no descriptor of the reader, no descriptor other than
descriptor 0, and no descriptor at all when descriptor 0 is not open. -/
theorem SymbolReader_Destroy_again (r : SymbolReader) (s : Sys) :
    (SymbolReader_Destroy (some r) s).1 = some SymbolReader.zero ∧
    (∀ e ∈ (SymbolReader_Destroy (some r) s).2.fds, e.1 ≠ r.fd) ∧
    (SymbolReader_Destroy (SymbolReader_Destroy (some r) s).1
      (SymbolReader_Destroy (some r) s).2).1 = some SymbolReader.zero ∧
    (SymbolReader_Destroy (SymbolReader_Destroy (some r) s).1
      (SymbolReader_Destroy (some r) s).2).2.maps = (SymbolReader_Destroy (some r) s).2.maps ∧
    (SymbolReader_Destroy (SymbolReader_Destroy (some r) s).1
      (SymbolReader_Destroy (some r) s).2).2.fds =
        (SymbolReader_Destroy (some r) s).2.fds.filter (fun e => !(e.1 == 0)) ∧
    ((∀ e ∈ (SymbolReader_Destroy (some r) s).2.fds, e.1 ≠ 0) →
      (SymbolReader_Destroy (SymbolReader_Destroy (some r) s).1
        (SymbolReader_Destroy (some r) s).2).2.fds = (SymbolReader_Destroy (some r) s).2.fds) ∧
    ∃ ret, (SymbolReader_Destroy (SymbolReader_Destroy (some r) s).1
      (SymbolReader_Destroy (some r) s).2).2.log =
        (SymbolReader_Destroy (some r) s).2.log ++
          [Syscall.sc_munmap 0 0 (-1), Syscall.sc_close 0 ret] := by
  have e1 : (SymbolReader_Destroy (some r) s).1 = some SymbolReader.zero := rfl
  have hown : ∀ e ∈ (SymbolReader_Destroy (some r) s).2.fds, e.1 ≠ r.fd := by
    intro e he
    have e0 : (SymbolReader_Destroy (some r) s).2 =
        sys_close (sys_munmap s r.ehdr r.fsize) r.fd := rfl
    rw [e0] at he
    unfold sys_close at he
    split at he
    · dsimp only at he
      have h1 := (List.mem_filter.mp he).2
      intro h2
      simp [h2] at h1
    · rename_i hany
      dsimp only at he
      intro h2
      exact hany (List.any_eq_true.mpr ⟨e, he, by simp [h2]⟩)
  refine ⟨e1, hown, ?_⟩
  clear hown
  generalize (SymbolReader_Destroy (some r) s).2 = s1
  rw [e1]
  have e2 : SymbolReader_Destroy (some SymbolReader.zero) s1 =
      (some SymbolReader.zero,
        sys_close { s1 with log := s1.log ++ [Syscall.sc_munmap 0 0 (-1)] } 0) := rfl
  rw [e2]
  have hfds : (sys_close { s1 with log := s1.log ++ [Syscall.sc_munmap 0 0 (-1)] } 0).fds =
      s1.fds.filter (fun e => !(e.1 == 0)) := by
    unfold sys_close
    dsimp only
    split
    · rfl
    · rename_i hany
      dsimp only
      symm
      rw [List.filter_eq_self]
      intro e he
      by_cases h0 : e.1 = 0
      · exact absurd (List.any_eq_true.mpr ⟨e, he, by simp [h0]⟩) hany
      · simp [h0]
  refine ⟨rfl, ?_, hfds, ?_, ?_⟩
  · unfold sys_close
    dsimp only
    split <;> rfl
  · intro hno
    rw [hfds, List.filter_eq_self]
    intro e he
    simp [hno e he]
  · unfold sys_close
    dsimp only
    split
    · exact ⟨0, by simp⟩
    · exact ⟨-1, by simp⟩

/-- C17 (amended) in a process that closed descriptor 0 before the reader of
`elf_foo_bar` is destroyed twice: the second `SymbolReader_Destroy` leaves the
descriptors 1 and 2 open, as the first one left them. -/
theorem SymbolReader_Destroy_again_witness :
    (SymbolReader_Destroy (some demo_reader) (sys_close demo_state 0)).2.fds.map Prod.fst =
      [1, 2] ∧
    (SymbolReader_Destroy (SymbolReader_Destroy (some demo_reader) (sys_close demo_state 0)).1
      (SymbolReader_Destroy (some demo_reader) (sys_close demo_state 0)).2).2.fds =
        (SymbolReader_Destroy (some demo_reader) (sys_close demo_state 0)).2.fds :=
  ⟨by decide,
   (SymbolReader_Destroy_again demo_reader (sys_close demo_state 0)).2.2.2.2.2.1 (by decide)⟩

/-! ## The byte range of the section in the address space -/

theorem huge_init_eq :
    SymbolReader_Init (some SymbolReader.zero) (some ELF_FILE_PATH)
      (demo_sys (regular elf_huge_symtab)) = (0, some huge_reader, huge_state) := by
  have h1 : (SymbolReader_Init (some SymbolReader.zero) (some ELF_FILE_PATH)
      (demo_sys (regular elf_huge_symtab))).1 = 0 := by decide
  have h2 : (SymbolReader_Init (some SymbolReader.zero) (some ELF_FILE_PATH)
      (demo_sys (regular elf_huge_symtab))).2.1 = some huge_reader := by decide
  rw [← h1, ← h2]
  rfl

/-- C18 (amended): for every initialised reader and every index `i < sym_count =
sh_size / 24`, entry `i` ends at or before byte `sh_size` of the selected section
(`24 * i + 24 ≤ sh_size`).  When the declared byte range of the section lies in the
64-bit address space (`ehdr + sh_offset + sh_size ≤ 2 ^ 64`), the 24-byte entry at
`sym_table + 24 * i` starts at or after `sh_offset` and ends at or before
`sh_offset + sh_size` of the section (both above the header base), without passing the
end of the address space; and for every action and filter that do not write `sym_table`
or `sym_count` of the reader, every entry the traversal passes to the filter or to the
action lies wholly inside that range, so a trailing partial entry is never presented. -/
theorem SymbolReader_ProcessSymbols_entries_inside {σ : Type} (reader0 : Option SymbolReader)
    (fpath : Option String) (s0 : Sys) (r : SymbolReader) (s : Sys)
    (hinit : SymbolReader_Init reader0 fpath s0 = (0, some r, s)) :
    (∀ i, i < r.sym_count → 24 * i + 24 ≤ sh_size (load8 s) r.sym_sh) ∧
    (r.ehdr + sh_offset (load8 s) r.sym_sh + sh_size (load8 s) r.sym_sh ≤ 2 ^ 64 →
      (∀ i, i < r.sym_count →
        r.ehdr + sh_offset (load8 s) r.sym_sh ≤ r.sym_table + 24 * i ∧
        r.sym_table + 24 * i + 24 ≤
          r.ehdr + sh_offset (load8 s) r.sym_sh + sh_size (load8 s) r.sym_sh ∧
        r.sym_table + 24 * i + 24 ≤ 2 ^ 64) ∧
      ∀ (action : sym_action_t σ) (filter : Option (sym_filter_t σ)) (u : σ),
        action_keeps action → filter_keeps (filter_of filter) →
        ∀ c ∈ (SymbolReader_ProcessSymbols (some r) (some action) filter u).2.2,
          r.ehdr + sh_offset (load8 s) r.sym_sh ≤ c.sym ∧
          c.sym + 24 ≤
            r.ehdr + sh_offset (load8 s) r.sym_sh + sh_size (load8 s) r.sym_sh ∧
          c.sym + 24 ≤ 2 ^ 64) := by
  obtain ⟨hcount, htable⟩ := SymbolReader_Init_table reader0 fpath s0 r s hinit
  have hr := SymbolReader_Init_count_lt reader0 fpath s0 r s hinit
  have hoff : ∀ i, i < r.sym_count → 24 * i + 24 ≤ sh_size (load8 s) r.sym_sh := by
    intro i hi
    have h1 := Nat.mul_div_le (sh_size (load8 s) r.sym_sh) 24
    rw [← hcount] at h1
    have h2 : 24 * (i + 1) ≤ 24 * r.sym_count := Nat.mul_le_mul_left 24 hi
    omega
  refine ⟨hoff, ?_⟩
  intro hspace
  have key : ∀ i, i < r.sym_count →
      r.ehdr + sh_offset (load8 s) r.sym_sh ≤ r.sym_table + 24 * i ∧
      r.sym_table + 24 * i + 24 ≤
        r.ehdr + sh_offset (load8 s) r.sym_sh + sh_size (load8 s) r.sym_sh ∧
      r.sym_table + 24 * i + 24 ≤ 2 ^ 64 := by
    intro i hi
    have h1 := hoff i hi
    rw [htable]
    refine ⟨by omega, by omega, by omega⟩
  refine ⟨key, ?_⟩
  intro action filter u ha hf c hc
  obtain ⟨rets, hlen, hcalls⟩ := SymbolReader_ProcessSymbols_blocks r hr action filter u ha hf
  rw [hcalls] at hc
  obtain ⟨j, _, hj, hsym⟩ := blocks_mem r.sym_table rets 0 c hc
  rw [hsym]
  exact key j (by omega)

/-- C18 (amended) at the reader of `elf_foo_bar`, whose section lies in the address
space, a counting action and the filter that accepts the entries of even index: entry
1, the last one, ends inside the section, and so does every entry presented. -/
theorem SymbolReader_ProcessSymbols_entries_inside_witness :
    (24 * 1 + 24 ≤ sh_size (load8 demo_state) demo_reader.sym_sh) ∧
    (demo_reader.sym_table + 24 * 1 + 24 ≤
      demo_reader.ehdr + sh_offset (load8 demo_state) demo_reader.sym_sh +
        sh_size (load8 demo_state) demo_reader.sym_sh) ∧
    ∀ c ∈ (SymbolReader_ProcessSymbols (some demo_reader) (some count_action)
        (some even_filter) 0).2.2,
      demo_reader.ehdr + sh_offset (load8 demo_state) demo_reader.sym_sh ≤ c.sym ∧
      c.sym + 24 ≤ demo_reader.ehdr + sh_offset (load8 demo_state) demo_reader.sym_sh +
        sh_size (load8 demo_state) demo_reader.sym_sh ∧
      c.sym + 24 ≤ 2 ^ 64 :=
  ⟨(@SymbolReader_ProcessSymbols_entries_inside Nat (some SymbolReader.zero)
      (some ELF_FILE_PATH) (demo_sys (regular elf_foo_bar)) demo_reader demo_state
      demo_init_eq).1 1 (by decide),
   ((((@SymbolReader_ProcessSymbols_entries_inside Nat (some SymbolReader.zero)
      (some ELF_FILE_PATH) (demo_sys (regular elf_foo_bar)) demo_reader demo_state
      demo_init_eq).2 (by decide)).1 1 (by decide)).2).1,
   ((SymbolReader_ProcessSymbols_entries_inside (some SymbolReader.zero)
      (some ELF_FILE_PATH) (demo_sys (regular elf_foo_bar)) demo_reader demo_state
      demo_init_eq).2 (by decide)).2 count_action (some even_filter) 0 count_action_keeps
      even_filter_keeps⟩

/-- C18 as stated fails, on two inputs.  `elf_two_symtabs` is initialised with the
section of 50 bytes selected, so `sym_count = 2` and the section ends at address 4466;
with no filter and the action that writes `reader->sym_count = 3`, the traversal passes
the entry at 4464 to the filter and to the action: it holds the last two bytes of the
section and ends at 4488, outside the section.  `elf_huge_symtab` declares
`sh_size = 2 ^ 64 - 1` for the section at address 4288, so `sym_count` is
`768614336404564650` and the byte range of the section passes the end of the 64-bit
address space: the address of the last entry, `4288 + 24 * 768614336404564649`, is
`4248` in a 64-bit pointer, below the start of the section. -/
theorem SymbolReader_ProcessSymbols_entries_inside_fails :
    SymbolReader_Init (some SymbolReader.zero) (some ELF_FILE_PATH)
      (demo_sys (regular elf_two_symtabs)) = (0, some two_symtabs_reader, two_symtabs_state) ∧
    sh_size (load8 two_symtabs_state) two_symtabs_reader.sym_sh = 50 ∧
    two_symtabs_reader.ehdr + sh_offset (load8 two_symtabs_state) two_symtabs_reader.sym_sh +
      sh_size (load8 two_symtabs_state) two_symtabs_reader.sym_sh = 4466 ∧
    (SymbolReader_ProcessSymbols (some two_symtabs_reader) (some grow_action) none 0).2.2 =
      [Call.filter 0 4416 1, Call.action 0 4416, Call.filter 1 4440 1, Call.action 1 4440,
        Call.filter 2 4464 1, Call.action 2 4464] ∧
    (¬ ∀ c ∈ (SymbolReader_ProcessSymbols (some two_symtabs_reader) (some grow_action)
        none 0).2.2,
      c.sym + 24 ≤ two_symtabs_reader.ehdr +
        sh_offset (load8 two_symtabs_state) two_symtabs_reader.sym_sh +
        sh_size (load8 two_symtabs_state) two_symtabs_reader.sym_sh) ∧
    SymbolReader_Init (some SymbolReader.zero) (some ELF_FILE_PATH)
      (demo_sys (regular elf_huge_symtab)) = (0, some huge_reader, huge_state) ∧
    sh_size (load8 huge_state) huge_reader.sym_sh = 2 ^ 64 - 1 ∧
    huge_reader.ehdr + sh_offset (load8 huge_state) huge_reader.sym_sh = 4288 ∧
    huge_reader.sym_table = 4288 ∧
    huge_reader.sym_count = (2 ^ 64 - 1) / 24 ∧
    768614336404564649 < huge_reader.sym_count ∧
    (huge_reader.sym_table + 24 * 768614336404564649) % 2 ^ 64 = 4248 ∧
    (huge_reader.sym_table + 24 * 768614336404564649) % 2 ^ 64 <
      huge_reader.ehdr + sh_offset (load8 huge_state) huge_reader.sym_sh := by
  have h : (SymbolReader_ProcessSymbols (some two_symtabs_reader) (some grow_action)
      none 0).2.2 =
      [Call.filter 0 4416 1, Call.action 0 4416, Call.filter 1 4440 1, Call.action 1 4440,
        Call.filter 2 4464 1, Call.action 2 4464] := by
    simp [SymbolReader_ProcessSymbols, process_loop, process_step, dummy_filter, grow_action,
      two_symtabs_reader, SYM_SIZE]
  have h3 : two_symtabs_reader.ehdr +
      sh_offset (load8 two_symtabs_state) two_symtabs_reader.sym_sh +
      sh_size (load8 two_symtabs_state) two_symtabs_reader.sym_sh = 4466 := by decide
  refine ⟨two_symtabs_init_eq, by decide, h3, h, ?_, huge_init_eq, by decide, by decide,
    rfl, by decide, by decide, by decide, by decide⟩
  rw [h, h3]
  decide

end NmDemo
